/-
Verification of the ChessRL Board/Move/Environment abstraction layer.

This file gives a shallow embedding, in Lean 4, of the core of the ChessRL
repository (`src/chess_rl`): the `Move` value type (`game/move.py`), the four
board variants (`game/chess_board.py`, `game/xiangqi_pyffish_board.py`,
`game/simple_xiangqi_board.py`, `game/xiangqi_board.py`) and the two
Gym-style environments (`environments/chess_env.py`,
`environments/xiangqi_env.py`), and proves or refutes the specification
claims about them.

Modelling conventions:
* Python exceptions are modelled with `Except PyErr`; a method that can raise
  returns `Except PyErr result` (and, for mutating methods, the post-call
  state, which equals the pre-call state on the paths where the source raises
  before mutating, or after rolling back).
* Python strings manipulated character-by-character (`move.py`) are modelled
  as lists of Unicode code points (`List Int`, since `ord`/`chr` arithmetic
  is over Python ints).  Opaque strings (FEN strings, oracle move strings)
  are modelled as Lean `String`s.
* The reward floats produced by the code take exactly the values
  `-1.0`, `0.0`, `+1.0` (they are only ever assigned and compared, never
  computed with), so they are modelled exactly as the integers -1, 0, 1.
* Observation tensors hold only the float values `0.0` and `1.0` (assigned,
  never computed with), so their entries are modelled as naturals; a tensor
  is a function from `(plane, row, col)` index triples to entries.
* The external rules backends (the `python-chess` library and the `pyffish`
  oracle) are not part of the repository.  They are modelled as abstract
  records of functions (`ChessLib`, `XOracle`); theorems that depend on a
  documented property of the backend (e.g. "applying a move flips the side
  to move encoded in the returned FEN") take that property as an explicit
  hypothesis, and witnesses instantiate a small concrete backend.
-/
import Mathlib

namespace ChessRL

/-- Python exceptions relevant to the embedded code. -/
inductive PyErr where
  | valueError : String → PyErr
  | indexError : PyErr
  | keyError : PyErr
  | oracleError : String → PyErr
deriving DecidableEq, Repr

/-- A Python value stored in a move's `metadata` dictionary
(`Dict[str, Any]`); only equality of metadata matters to the claims, so a
small universe of values suffices. -/
inductive PyVal where
  | str : String → PyVal
  | int : Int → PyVal
deriving DecidableEq, Repr

/-- `Move.metadata` (`Optional[Dict[str, Any]]`), the dictionary modelled as
an association list. -/
abbrev Metadata := List (String × PyVal)

/-- A Python string viewed as a list of Unicode code points, for the
character arithmetic in `move.py` (`ord`, `chr`, indexing). -/
abbrev PyStr := List Int

/-- Python string indexing `s[i]` for a non-negative literal index:
`IndexError` when the index is out of range.  (`move.py` only indexes with
non-negative literals.) -/
def pyStrGet (s : PyStr) (i : Nat) : Except PyErr Int :=
  match s.get? i with
  | some c => .ok c
  | none => .error .indexError

/-- Python `int(rank)` where `rank` is a single-character string: the value
of a decimal digit, `ValueError` otherwise.  (Python also accepts Unicode
decimal digits; only the ASCII range occurs in the UCI alphabet.) -/
def pyInt1 (c : Int) : Except PyErr Int :=
  if 48 ≤ c ∧ c ≤ 57 then .ok (c - 48) else .error (.valueError "invalid literal for int")

/-- Python `str.lower()` on a single character (ASCII range, which is all
`from_uci` ever compares against). -/
def pyLower (c : Int) : Int :=
  if 65 ≤ c ∧ c ≤ 90 then c + 32 else c

/-- `game/move.py` — `Move`: frozen dataclass; equality is structural over
all four fields (`dataclass` generated `__eq__`). -/
structure Move where
  from_sq : Int
  to_sq : Int
  promotion : Option Int := none
  metadata : Option Metadata := none
deriving DecidableEq, Repr

/-- `move.py` `from_uci`, inner helper `square_to_index`:
`file_idx = ord(file) - ord('a')`, `rank_idx = int(rank) - 1`,
`rank_idx * 8 + file_idx`.  Raises whatever `int` raises. -/
def squareToIndex (file rank : Int) : Except PyErr Int := do
  let fileIdx := file - 97
  let rankVal ← pyInt1 rank
  let rankIdx := rankVal - 1
  return rankIdx * 8 + fileIdx

/-- `move.py` `promotion_map = {'q': 5, 'r': 4, 'b': 3, 'n': 2}` with
`.get(..., None)`. -/
def promotionMapGet (c : Int) : Option Int :=
  if c = 113 then some 5        -- q
  else if c = 114 then some 4   -- r
  else if c = 98 then some 3    -- b
  else if c = 110 then some 2   -- n
  else none

/-- `Move.from_uci` (`move.py` lines 28-58).  Indexes characters 0-3, builds
both squares, and reads a promotion letter only when the length is exactly 5.
No validation beyond what the indexing and `int()` calls raise. -/
def Move.from_uci (s : PyStr) : Except PyErr Move := do
  let fromFile ← pyStrGet s 0
  let fromRank ← pyStrGet s 1
  let toFile ← pyStrGet s 2
  let toRank ← pyStrGet s 3
  let fromSq ← squareToIndex fromFile fromRank
  let toSq ← squareToIndex toFile toRank
  let promotion ←
    if s.length = 5 then do
      let c ← pyStrGet s 4
      pure (promotionMapGet (pyLower c))
    else
      pure (none : Option Int)
  return { from_sq := fromSq, to_sq := toSq, promotion := promotion, metadata := none }

/-- Python `str(i)` for an int, as code points. -/
def pyIntStr (i : Int) : PyStr :=
  (toString i).data.map (fun c => (c.toNat : Int))

/-- `move.py` `to_uci`, inner helper `index_to_square`:
`rank = index // 8 + 1`, `file = chr(ord('a') + index % 8)`.
Python `//` and `%` with the positive modulus 8 are floor division and the
non-negative remainder, i.e. `Int.ediv`/`Int.emod`. -/
def indexToSquare (i : Int) : Int × PyStr :=
  (97 + i % 8, pyIntStr (i / 8 + 1))

/-- `move.py` `to_uci` promotion map `{5: 'q', 4: 'r', 3: 'b', 2: 'n'}` with
`.get(..., '')`. -/
def promotionStr (v : Int) : PyStr :=
  if v = 5 then [113]
  else if v = 4 then [114]
  else if v = 3 then [98]
  else if v = 2 then [110]
  else []

/-- `Move.to_uci` (`move.py` lines 60-83).  The promotion letter is appended
under Python truthiness (`if self.promotion:`): skipped when the field is
`None` or `0`. -/
def Move.to_uci (m : Move) : PyStr :=
  let f := indexToSquare m.from_sq
  let t := indexToSquare m.to_sq
  let uci := f.1 :: f.2 ++ t.1 :: t.2
  match m.promotion with
  | none => uci
  | some v => if v ≠ 0 then uci ++ promotionStr v else uci

/-! ## The `python-chess` backend and `ChessBoard` (`game/chess_board.py`)

`ChessBoard` is a thin wrapper around a `chess.Board` from the external
`python-chess` library.  The library is modelled as an abstract record of
pure functions over an abstract position type `Pos` and an abstract library
move type `CMove` (the wrapper is `BoardBase[chess.Move]`). -/

/-- The `chess.Outcome` value returned by `chess.Board.outcome()`:
a winner (`True` white / `False` black / `None` draw) and a termination
reason (modelled by its name string). -/
structure ChessOutcome where
  winner : Option Bool
  termination : String
deriving DecidableEq, Repr

/-- Abstract model of the `python-chess` library surface consumed by
`ChessBoard`: everything is a pure function of the position, matching the
spec's treatment of rules backends as side-effect-free oracles.
`pieceAt` returns `(piece_type, color)` for an occupied square. -/
structure ChessLib (Pos CMove : Type) where
  start : Pos
  turn : Pos → Bool
  legalMoves : Pos → List CMove
  isCheck : Pos → Bool
  push : Pos → CMove → Pos
  isGameOver : Pos → Bool
  outcome : Pos → Option ChessOutcome
  pieceAt : Pos → Nat → Option (Nat × Bool)
  fen : Pos → String

/-- The mutable state of a `ChessBoard` instance: the wrapped library board,
`move_history`, `result`. -/
structure ChessState (Pos CMove : Type) where
  board : Pos
  move_history : List CMove
  result : Option ChessOutcome

variable {Pos CMove : Type}

/-- `ChessBoard.__init__` without a FEN argument / the state after
`ChessBoard.reset()`: starting position, empty history, no result. -/
def ChessBoard.resetState (lib : ChessLib Pos CMove) : ChessState Pos CMove :=
  { board := lib.start, move_history := [], result := none }

/-- `ChessBoard.get_legal_moves` (lines 65-80): empty list when an explicit
`player` does not match the side to move, else the library's legal moves. -/
def ChessBoard.get_legal_moves (lib : ChessLib Pos CMove) (s : ChessState Pos CMove)
    (player : Option Bool) : List CMove :=
  match player with
  | some p => if p ≠ lib.turn s.board then [] else lib.legalMoves s.board
  | none => lib.legalMoves s.board

/-- `ChessBoard.apply_move` (lines 82-125).  Validates membership in the
library's legal moves before mutating; on success appends to the history,
pushes the move, and derives `(reward, done)` from the library's game-over
and outcome queries.  The returned pair is `(result-or-error, post state)`;
on the raising path the state is unchanged (the source raises before any
mutation). -/
def ChessBoard.apply_move [DecidableEq CMove] (lib : ChessLib Pos CMove)
    (s : ChessState Pos CMove) (m : CMove) :
    Except PyErr (Int × Bool) × ChessState Pos CMove :=
  if m ∈ lib.legalMoves s.board then
    -- is_check_before is computed but unused by the logic
    let playerBefore := lib.turn s.board
    let hist := s.move_history ++ [m]
    let b := lib.push s.board m
    if lib.isGameOver b then
      let result := lib.outcome b
      let reward : Int :=
        match result with
        | some o =>
          match o.winner with
          | some w => if w = playerBefore then 1 else -1
          | none => 0
        | none => 0
      (.ok (reward, true), { board := b, move_history := hist, result := result })
    else
      (.ok (0, false), { board := b, move_history := hist, result := s.result })
  else
    (.error (.valueError "Illegal move"), s)

/-- `ChessBoard.is_game_over` (lines 127-129). -/
def ChessBoard.is_game_over (lib : ChessLib Pos CMove) (s : ChessState Pos CMove) : Bool :=
  lib.isGameOver s.board

/-- `ChessBoard.get_state_hash` (lines 154-161): the FEN of the wrapped
position. -/
def ChessBoard.get_state_hash (lib : ChessLib Pos CMove) (s : ChessState Pos CMove) : String :=
  lib.fen s.board

/-- Sequential application of a list of moves, all required to succeed
(`none` as soon as one application raises).  Used to state the
turn-alternation claim. -/
def ChessBoard.applyMoves [DecidableEq CMove] (lib : ChessLib Pos CMove) :
    ChessState Pos CMove → List CMove → Option (ChessState Pos CMove)
  | s, [] => some s
  | s, m :: ms =>
    match ChessBoard.apply_move lib s m with
    | (.ok _, s') => ChessBoard.applyMoves lib s' ms
    | (.error _, _) => none

/-! ## The pyffish oracle and `XiangqiPyffishBoard`
(`game/xiangqi_pyffish_board.py`)

`XiangqiPyffishMove` is a wrapper class around a move string with equality
and hash delegated to the string, so it is modelled as the string itself.
The `pyffish` module (`sf`) is modelled as an abstract record; the wrapper
calls `sf.legal_moves` with the 3-argument signature
(`variant, fen, []`) and falls back to the 2-argument signature on any
exception, so the two signatures are separate fields. -/

/-- Abstract model of the `pyffish` oracle surface consumed by the Xiangqi
boards (the `variant` argument is always `"xiangqi"` and is omitted). -/
structure XOracle where
  startFen : String
  legalMoves3 : String → Except PyErr (List String)
  legalMoves2 : String → Except PyErr (List String)
  getFen : String → String → Except PyErr String

/-- The `try: sf.legal_moves(variant, fen, []) except: sf.legal_moves(variant,
fen)` compatibility pattern used by `get_legal_moves` and `apply_move`. -/
def sfLegalMovesCompat (o : XOracle) (fen : String) : Except PyErr (List String) :=
  match o.legalMoves3 fen with
  | .ok ms => .ok ms
  | .error _ => o.legalMoves2 fen

/-- Python `str.split(sep)` with a one-character separator, over the
string's characters: splits at every occurrence and keeps empty pieces
(`"a b".split(' ')` semantics); the result is never empty.  (Defined by
structural recursion so that it evaluates definitionally, unlike
`String.splitOn`.) -/
def splitCharsOn (sep : Char) : List Char → List (List Char)
  | [] => [[]]
  | c :: cs =>
    let r := splitCharsOn sep cs
    if c = sep then [] :: r
    else (c :: r.headD []) :: r.tail

/-- `fen.split(' ')[1]` — the side-to-move field of a FEN; `IndexError` when
the FEN has no second field. -/
def fenField1 (fen : String) : Except PyErr String :=
  match (splitCharsOn ' ' fen.data).get? 1 with
  | some cs => .ok (String.mk cs)
  | none => .error .indexError

/-- The stored `result` dictionary of the Xiangqi boards:
`{'winner': ..., 'termination': ...}`. -/
structure XResult where
  winner : String
  termination : String
deriving DecidableEq, Repr

/-- Mutable state of a `XiangqiPyffishBoard` (also of a
`SimpleXiangqiBoard`, which has the same three fields):
`current_fen`, `move_history`, `result`. -/
structure XPBState where
  current_fen : String
  move_history : List String
  result : Option XResult
deriving DecidableEq, Repr

/-- `XiangqiPyffishBoard.reset` / fresh `__init__`: oracle start FEN, empty
history, no result. -/
def XiangqiPyffishBoard.resetState (o : XOracle) : XPBState :=
  { current_fen := o.startFen, move_history := [], result := none }

/-- `XiangqiPyffishBoard.get_legal_moves` (lines 107-133) for the
`player=None` call: reads the FEN's side field (an `IndexError` there
propagates), then queries the oracle through the compatibility pattern.
(The explicit-`player` branch compares against the parsed side and returns
`[]` on mismatch; claims only exercise the default call.) -/
def XiangqiPyffishBoard.get_legal_moves (o : XOracle) (s : XPBState) :
    Except PyErr (List String) :=
  match fenField1 s.current_fen with
  | .error e => .error e
  | .ok _ => sfLegalMovesCompat o s.current_fen

/-- `XiangqiPyffishBoard.apply_move` (lines 135-202).  Validates against the
oracle's legal moves, appends to the history, asks the oracle for the next
FEN (an oracle failure there is re-raised as `ValueError` after popping the
history back), then runs the termination check inside a `try; except
Exception: pass` block: a failure anywhere in that block leaves the defaults
already assigned (`done` keeps the value it had when the exception was
raised, `reward` stays 0, `result` stays unset). -/
def XiangqiPyffishBoard.apply_move (o : XOracle) (s : XPBState) (mv : String) :
    Except PyErr (Int × Bool) × XPBState :=
  match sfLegalMovesCompat o s.current_fen with
  | .error e => (.error e, s)
  | .ok legal =>
    if mv ∈ legal then
      match o.getFen s.current_fen mv with
      | .error _ =>
        -- history was appended, then popped back by the error handler
        (.error (.valueError "Error applying move"),
         { s with move_history := (s.move_history ++ [mv]).dropLast })
      | .ok fen' =>
        -- (reward, done, result) from the try/except-guarded termination check
        let rdr : Int × Bool × Option XResult :=
          match sfLegalMovesCompat o fen' with
          | .error _ => (0, false, s.result)
          | .ok nextLegal =>
            if nextLegal.isEmpty then
              match fenField1 fen' with
              | .error _ => (0, true, s.result)
              | .ok ch =>
                -- prev_player = current_player_char != 'w'
                let prevPlayer := ch ≠ "w"
                ((if prevPlayer then 1 else -1), true,
                 some { winner := if prevPlayer then "red" else "black",
                        termination := "checkmate" })
            else (0, false, s.result)
        (.ok (rdr.1, rdr.2.1),
         { current_fen := fen', move_history := s.move_history ++ [mv], result := rdr.2.2 })
    else
      (.error (.valueError "Illegal move"), s)

/-- `XiangqiPyffishBoard.is_game_over` (lines 204-212): a single 3-argument
oracle query; any oracle exception is caught and the method returns
`False`. -/
def XiangqiPyffishBoard.is_game_over (o : XOracle) (s : XPBState) : Bool :=
  match o.legalMoves3 s.current_fen with
  | .ok ms => ms.isEmpty
  | .error _ => false

/-- `XiangqiPyffishBoard.get_state_hash` (lines 247-254). -/
def XiangqiPyffishBoard.get_state_hash (s : XPBState) : String :=
  s.current_fen

/-- Sequential application of a list of moves on a `XiangqiPyffishBoard`,
all required to succeed. -/
def XiangqiPyffishBoard.applyMoves (o : XOracle) : XPBState → List String → Option XPBState
  | s, [] => some s
  | s, m :: ms =>
    match XiangqiPyffishBoard.apply_move o s m with
    | (.ok _, s') => XiangqiPyffishBoard.applyMoves o s' ms
    | (.error _, _) => none

/-! ## `SimpleXiangqiBoard` (`game/simple_xiangqi_board.py`)

Same state shape as the pyffish board (`current_fen`, `move_history`,
`result`); `XPBState` is reused. -/

/-- `SimpleXiangqiBoard.reset` / fresh `__init__`. -/
def SimpleXiangqiBoard.resetState (o : XOracle) : XPBState :=
  { current_fen := o.startFen, move_history := [], result := none }

/-- `SimpleXiangqiBoard.get_legal_moves` (lines 32-38): a single 3-argument
oracle query; any oracle exception is caught (and printed) and the method
returns the empty list. -/
def SimpleXiangqiBoard.get_legal_moves (o : XOracle) (s : XPBState) : List String :=
  match o.legalMoves3 s.current_fen with
  | .ok ms => ms
  | .error _ => []

/-- `SimpleXiangqiBoard.make_move` (lines 40-79).  Validates against
`get_legal_moves` (exception-swallowing included), appends to the history,
asks the oracle for the next FEN (failure re-raised as `ValueError` after
popping the history back), then checks termination with a single
exception-swallowed oracle query; when the opponent has no moves the reward
is 1 ("the player who just moved wins"). -/
def SimpleXiangqiBoard.make_move (o : XOracle) (s : XPBState) (mv : String) :
    Except PyErr (Int × Bool) × XPBState :=
  if mv ∈ SimpleXiangqiBoard.get_legal_moves o s then
    match o.getFen s.current_fen mv with
    | .error _ =>
      -- history was appended, then popped back by the error handler
      (.error (.valueError "Error making move"),
       { s with move_history := (s.move_history ++ [mv]).dropLast })
    | .ok fen' =>
      let isDone :=
        match o.legalMoves3 fen' with
        | .ok ms => ms.isEmpty
        | .error _ => false
      (.ok ((if isDone then (1 : Int) else 0), isDone),
       { current_fen := fen', move_history := s.move_history ++ [mv], result := s.result })
  else
    (.error (.valueError "Illegal move"), s)

/-- `SimpleXiangqiBoard.is_game_over` (lines 81-86). -/
def SimpleXiangqiBoard.is_game_over (o : XOracle) (s : XPBState) : Bool :=
  match o.legalMoves3 s.current_fen with
  | .ok ms => ms.isEmpty
  | .error _ => false

/-- Sequential application of a list of moves on a `SimpleXiangqiBoard`. -/
def SimpleXiangqiBoard.applyMoves (o : XOracle) : XPBState → List String → Option XPBState
  | s, [] => some s
  | s, m :: ms =>
    match SimpleXiangqiBoard.make_move o s m with
    | (.ok _, s') => SimpleXiangqiBoard.applyMoves o s' ms
    | (.error _, _) => none

/-! ## The native `XiangqiBoard` stub (`game/xiangqi_board.py`)

A from-scratch board whose move generation is an explicit `TODO` stub:
`get_legal_moves` builds and returns an empty list in every position, and
`is_game_over` returns `False` unconditionally. -/

/-- `XiangqiMove` (`xiangqi_board.py` lines 24-61): positions are `(row,
col)` int pairs; equality is over all four fields. -/
structure XiangqiMove where
  from_pos : Int × Int
  to_pos : Int × Int
  piece_type : Int
  piece_color : Bool
deriving DecidableEq, Repr

/-- The 10x9 `numpy` grid of the native board, as a list of 10 rows of 9
signed entries (0 empty, positive red, negative black). -/
abbrev XQGrid := List (List Int)

/-- `self.board[r, c]` for the in-range indices used by the wrapper code. -/
def gridGet (g : XQGrid) (r c : Nat) : Int :=
  ((g.get? r).getD []).getD c 0

/-- `self.board[r, c] = v` for in-range indices. -/
def gridSet (g : XQGrid) (r c : Nat) (v : Int) : XQGrid :=
  g.set r (((g.get? r).getD []).set c v)

/-- Mutable state of the native `XiangqiBoard`: the grid, `move_history`,
`current_player`, `result`, `halfmove_clock`. -/
structure XQBState where
  board : XQGrid
  move_history : List XiangqiMove
  current_player : Bool
  result : Option XResult
  halfmove_clock : Int
deriving DecidableEq, Repr

/-- `_setup_initial_position` (lines 110-156): the starting grid, with piece
codes GENERAL=1, ADVISOR=2, ELEPHANT=3, HORSE=4, CHARIOT=5, CANNON=6,
SOLDIER=7; red positive (rows 0-3), black negative (rows 6-9). -/
def xqInitialGrid : XQGrid :=
  [[5, 4, 3, 2, 1, 2, 3, 4, 5],
   [0, 0, 0, 0, 0, 0, 0, 0, 0],
   [0, 6, 0, 0, 0, 0, 0, 6, 0],
   [7, 0, 7, 0, 7, 0, 7, 0, 7],
   [0, 0, 0, 0, 0, 0, 0, 0, 0],
   [0, 0, 0, 0, 0, 0, 0, 0, 0],
   [-7, 0, -7, 0, -7, 0, -7, 0, -7],
   [0, -6, 0, 0, 0, 0, 0, -6, 0],
   [0, 0, 0, 0, 0, 0, 0, 0, 0],
   [-5, -4, -3, -2, -1, -2, -3, -4, -5]]

/-- `XiangqiBoard.reset` / fresh `__init__` (lines 88-108, 158-170): initial
grid, empty history, red (`True`) to move, no result, zero clock. -/
def XiangqiBoard.resetState : XQBState :=
  { board := xqInitialGrid, move_history := [], current_player := true,
    result := none, halfmove_clock := 0 }

/-- `XiangqiBoard.get_legal_moves` (lines 172-195): the move-generation
algorithm is an explicit `TODO`; after the turn check the method builds and
returns the empty list in every position. -/
def XiangqiBoard.get_legal_moves (s : XQBState) (player : Option Bool) : List XiangqiMove :=
  match player with
  | some p => if p ≠ s.current_player then [] else []
  | none => []

/-- `XiangqiBoard.apply_move` (lines 197-246): validates membership in
`get_legal_moves()` before touching the grid, then moves the piece, appends
to the history, flips `current_player`, and returns `(0.0, False)` (the
termination check is a `TODO`).  Since `get_legal_moves` always returns the
empty list, the validation always raises and the mutating branch is dead
code, kept here faithfully. -/
def XiangqiBoard.apply_move (s : XQBState) (m : XiangqiMove) :
    Except PyErr (Int × Bool) × XQBState :=
  -- player_before is saved but unused by the stub logic
  if m ∈ XiangqiBoard.get_legal_moves s none then
    let src := m.from_pos
    let dst := m.to_pos
    let piece := gridGet s.board src.1.toNat src.2.toNat
    let b := gridSet (gridSet s.board dst.1.toNat dst.2.toNat piece) src.1.toNat src.2.toNat 0
    (.ok (0, false),
     { s with board := b, move_history := s.move_history ++ [m],
              current_player := ! s.current_player })
  else
    (.error (.valueError "Illegal move"), s)

/-- `XiangqiBoard.is_game_over` (lines 248-251): the check is a `TODO`;
the method returns `False` unconditionally. -/
def XiangqiBoard.is_game_over (_s : XQBState) : Bool :=
  false

/-- `XiangqiBoard.get_state_hash` (lines 282-290):
`str(self.board.tolist()) + "|" + str(self.current_player)`; the Python
rendering of the nested int list is modelled by Lean's list `toString`
(only its injectivity on equal states matters to the claims). -/
def XiangqiBoard.get_state_hash (s : XQBState) : String :=
  toString s.board ++ "|" ++ (if s.current_player then "True" else "False")

/-- Sequential application of a list of moves on the native board. -/
def XiangqiBoard.applyMoves : XQBState → List XiangqiMove → Option XQBState
  | s, [] => some s
  | s, m :: ms =>
    match XiangqiBoard.apply_move s m with
    | (.ok _, s') => XiangqiBoard.applyMoves s' ms
    | (.error _, _) => none

/-! ## Environments (`environments/chess_env.py`, `environments/xiangqi_env.py`)

`step` returns `(observation, reward, terminated, truncated, info)`.  The
observation and the `info` dictionary are pure reads of the post-step state
(observation and result are modelled separately by `to_observation` /
`get_result`); the model's step result carries `(reward, terminated,
truncated)` together with the post-call environment state.  The PRNG handle
(`self.rng`) is used only by `seed()` and never read by `step`/`reset`, so
it is omitted from the state. -/

/-- Python list indexing `l[i]` with an arbitrary int index: negative
indices count from the end; `IndexError` outside `[-len, len)`. -/
def pyListGet {α : Type} (l : List α) (i : Int) : Except PyErr α :=
  let j : Int := if i < 0 then (l.length : Int) + i else i
  if 0 ≤ j ∧ j < (l.length : Int) then
    match l.get? j.toNat with
    | some a => .ok a
    | none => .error .indexError
  else .error .indexError

/-- `ChessEnv` state: the owned board, `max_steps`, `steps`,
`current_player`. -/
structure ChessEnvState (Pos CMove : Type) where
  board : ChessState Pos CMove
  max_steps : Int
  steps : Int
  current_player : Bool

/-- `ChessEnv.__init__` (lines 25-36). -/
def ChessEnv.init (lib : ChessLib Pos CMove) (maxSteps : Int := 400) : ChessEnvState Pos CMove :=
  { board := ChessBoard.resetState lib, max_steps := maxSteps, steps := 0,
    current_player := true }

/-- `ChessEnv.reset` (lines 38-66): resets the board, the step counter and
the turn tracker (the optional seeding only reseeds the unused PRNG). -/
def ChessEnv.reset (lib : ChessLib Pos CMove) (e : ChessEnvState Pos CMove) :
    ChessEnvState Pos CMove :=
  { e with board := ChessBoard.resetState lib, steps := 0, current_player := true }

/-- `ChessEnv.step` (lines 68-112): rejects `action >= len(legal_moves)`
with `ValueError`, then decodes `legal_moves[action]` with Python list
indexing (negative indices wrap), applies the move, increments `steps`,
flips the turn tracker and derives `truncated = steps >= max_steps`. -/
def ChessEnv.step [DecidableEq CMove] (lib : ChessLib Pos CMove)
    (e : ChessEnvState Pos CMove) (action : Int) :
    Except PyErr (Int × Bool × Bool) × ChessEnvState Pos CMove :=
  let legal := ChessBoard.get_legal_moves lib e.board none
  if (legal.length : Int) ≤ action then
    (.error (.valueError "Invalid action index"), e)
  else
    match pyListGet legal action with
    | .error err => (.error err, e)
    | .ok move =>
      match ChessBoard.apply_move lib e.board move with
      | (.error err, b) => (.error err, { e with board := b })
      | (.ok (reward, gameOver), b) =>
        let steps := e.steps + 1
        (.ok (reward, gameOver, e.max_steps ≤ steps),
         { e with board := b, steps := steps, current_player := ! e.current_player })

/-- `XiangqiEnv` state: the owned native stub board (line 30:
`self.board = XiangqiBoard()`), `max_steps`, `steps`, `current_player`. -/
structure XQEnvState where
  board : XQBState
  max_steps : Int
  steps : Int
  current_player : Bool
deriving DecidableEq, Repr

/-- `XiangqiEnv.__init__` (lines 23-34): the environment is constructed over
the native stub `XiangqiBoard`. -/
def XiangqiEnv.init (maxSteps : Int := 400) : XQEnvState :=
  { board := XiangqiBoard.resetState, max_steps := maxSteps, steps := 0,
    current_player := true }

/-- `XiangqiEnv.reset` (lines 36-64). -/
def XiangqiEnv.reset (e : XQEnvState) : XQEnvState :=
  { e with board := XiangqiBoard.resetState, steps := 0, current_player := true }

/-- `XiangqiEnv.step` (lines 66-110): same shape as `ChessEnv.step`, over
the stub board. -/
def XiangqiEnv.step (e : XQEnvState) (action : Int) :
    Except PyErr (Int × Bool × Bool) × XQEnvState :=
  let legal := XiangqiBoard.get_legal_moves e.board none
  if (legal.length : Int) ≤ action then
    (.error (.valueError "Invalid action index"), e)
  else
    match pyListGet legal action with
    | .error err => (.error err, e)
    | .ok move =>
      match XiangqiBoard.apply_move e.board move with
      | (.error err, b) => (.error err, { e with board := b })
      | (.ok (reward, gameOver), b) =>
        let steps := e.steps + 1
        (.ok (reward, gameOver, e.max_steps ≤ steps),
         { e with board := b, steps := steps, current_player := ! e.current_player })

/-! ## Observation tensors

An observation tensor is a function from `(plane, row, col)` to an entry
(`0` or `1`, the exact float values `0.0`/`1.0` of the source).  Building a
tensor is a fold of `Function.update`s over the cells the source loops
over; each board variant supplies the loop and the plane mapping. -/

/-- Observation tensors: `(plane, row, col) ↦ entry`. -/
abbrev Obs := Nat × Nat × Nat → Nat

/-- `ChessBoard.PIECE_TO_PLANE` (`chess_board.py` lines 26-39), the
dictionary from `(piece_type, color)` to plane index; `python-chess` piece
types are PAWN=1 … KING=6 and colors WHITE=`True` / BLACK=`False`.
A lookup outside the 12 listed keys is a `KeyError` (`none` here). -/
def chessPlane : Nat × Bool → Option Nat
  | (1, true) => some 0
  | (2, true) => some 1
  | (3, true) => some 2
  | (4, true) => some 3
  | (5, true) => some 4
  | (6, true) => some 5
  | (1, false) => some 6
  | (2, false) => some 7
  | (3, false) => some 8
  | (4, false) => some 9
  | (5, false) => some 10
  | (6, false) => some 11
  | _ => none

/-- `ChessBoard.to_observation` (lines 131-152): zero tensor, then for each
square 0-63 holding a piece, a `1.0` at `(plane, 7 - square // 8,
square % 8)` (the row flip `row = 7 - row`); a piece whose type/color pair
is not in the dictionary would raise `KeyError`. -/
def ChessBoard.to_observation (lib : ChessLib Pos CMove) (s : ChessState Pos CMove) :
    Except PyErr Obs :=
  (List.range 64).foldlM
    (fun obs sq =>
      match lib.pieceAt s.board sq with
      | none => .ok obs
      | some pc =>
        match chessPlane pc with
        | none => .error .keyError
        | some plane => .ok (Function.update obs (plane, 7 - sq / 8, sq % 8) 1))
    (fun _ => 0)

/-- The number of pieces currently on a `ChessBoard` (occupied squares). -/
def chessNumPieces (lib : ChessLib Pos CMove) (s : ChessState Pos CMove) : Nat :=
  (List.range 64).countP fun sq => (lib.pieceAt s.board sq).isSome

/-- The native board's row-major cell enumeration: the nested
`for r in range(10): for c in range(9):` loops of
`XiangqiBoard.to_observation`, flattened. -/
def xqCells : List (Nat × Nat) :=
  (List.range 10).flatMap fun r => (List.range 9).map fun c => (r, c)

/-- The native board's plane for a nonzero grid entry
(`xiangqi_board.py` lines 268-275): `piece_type - 1` for red (positive),
`piece_type + 6` for black. -/
def xqPlane (piece : Int) : Nat :=
  if 0 < piece then piece.natAbs - 1 else piece.natAbs + 6

/-- `XiangqiBoard.to_observation` (lines 253-280): zero tensor, one `1.0`
per nonzero grid cell at `(plane, r, c)`; a plane index at or beyond 14
would be a `numpy` `IndexError`. -/
def XiangqiBoard.to_observation (s : XQBState) : Except PyErr Obs :=
  xqCells.foldlM
    (fun obs rc =>
      let piece := gridGet s.board rc.1 rc.2
      if piece = 0 then .ok obs
      else
        let plane := xqPlane piece
        if plane < 14 then .ok (Function.update obs (plane, rc.1, rc.2) 1)
        else .error .indexError)
    (fun _ => 0)

/-- The number of pieces currently on the native board (nonzero cells). -/
def xqNumPieces (s : XQBState) : Nat :=
  xqCells.countP fun rc => ! (gridGet s.board rc.1 rc.2 = 0 : Bool)

/-- `PIECE_MAPPING` of the FEN-parsing Xiangqi boards
(`xiangqi_pyffish_board.py` lines 64-79, duplicated in
`simple_xiangqi_board.py` lines 105-120): FEN letter to
`(piece_type, is_red)`; letters outside the mapping are skipped. -/
def xqPieceMapping : Char → Option (Nat × Bool)
  | 'P' => some (0, true)
  | 'N' => some (1, true)
  | 'B' => some (2, true)
  | 'A' => some (3, true)
  | 'R' => some (4, true)
  | 'C' => some (5, true)
  | 'K' => some (6, true)
  | 'p' => some (0, false)
  | 'n' => some (1, false)
  | 'b' => some (2, false)
  | 'a' => some (3, false)
  | 'r' => some (4, false)
  | 'c' => some (5, false)
  | 'k' => some (6, false)
  | _ => none

/-- One character of the FEN-rank scan (`xiangqi_pyffish_board.py` lines
231-243 / `simple_xiangqi_board.py` lines 130-142): a digit advances
`file_idx` by its value, a mapped piece letter writes a `1.0` at
`(plane, rank_idx, file_idx)` and advances by one, any other character just
advances by one.  `shift` is the black-plane offset (`NUM_PIECE_TYPES` = 7
for the pyffish board; `NUM_PIECE_TYPES // 2` = 3 in
`SimpleXiangqiBoard.get_observation`).  Out-of-range `numpy` indices raise
`IndexError`; the tensor shape is `(14, 10, 9)` in both variants. -/
def fenObsStep (shift rankIdx : Nat) (st : Obs × Nat) (c : Char) : Except PyErr (Obs × Nat) :=
  if c.isDigit then .ok (st.1, st.2 + (c.toNat - 48))
  else
    match xqPieceMapping c with
    | some pb =>
      let plane := if pb.2 then pb.1 else pb.1 + shift
      if plane < 14 ∧ rankIdx < 10 ∧ st.2 < 9 then
        .ok (Function.update st.1 (plane, rankIdx, st.2) 1, st.2 + 1)
      else .error .indexError
    | none => .ok (st.1, st.2 + 1)

/-- One FEN rank of the scan: inner character loop from `file_idx = 0`,
then the enumeration index advances. -/
def fenObsRankStep (shift : Nat) (st : Obs × Nat) (rank : List Char) :
    Except PyErr (Obs × Nat) := do
  let inner ← rank.foldlM (fenObsStep shift st.2) (st.1, 0)
  pure (inner.1, st.2 + 1)

/-- The board ranks of a FEN string:
`fen.split(' ')[0].split('/')` (index 0 of a Python `split` always exists). -/
def fenRanks (fen : String) : List (List Char) :=
  splitCharsOn '/' ((splitCharsOn ' ' fen.data).headD [])

/-- The FEN-parsing observation builder shared by the two oracle-backed
boards, parameterized by the black-plane offset. -/
def fenObsAux (shift : Nat) (ranks : List (List Char)) : Except PyErr Obs := do
  let res ← ranks.foldlM (fenObsRankStep shift) ((fun _ => 0), 0)
  return res.1

/-- `XiangqiPyffishBoard.to_observation` (lines 214-245):
black planes are offset by `NUM_PIECE_TYPES` = 7. -/
def XiangqiPyffishBoard.to_observation (s : XPBState) : Except PyErr Obs :=
  fenObsAux 7 (fenRanks s.current_fen)

/-- `SimpleXiangqiBoard.get_observation` (lines 88-144): black planes are
offset by `NUM_PIECE_TYPES // 2` = 3 (as written in the source). -/
def SimpleXiangqiBoard.get_observation (s : XPBState) : Except PyErr Obs :=
  fenObsAux 3 (fenRanks s.current_fen)

/-- The rendered width of a FEN rank: digits count for their value, every
other character for one file. -/
def rankWidth (chars : List Char) : Nat :=
  (chars.map fun c => if c.isDigit then c.toNat - 48 else 1).sum

/-- The piece characters of a FEN rank. -/
def rankPieces (chars : List Char) : Nat :=
  chars.countP fun c => (xqPieceMapping c).isSome

/-- Well-formedness of a Xiangqi FEN board field: at most 10 ranks, each
rank made of digits and mapped piece letters only and rendering to at most
9 files.  Every FEN the pyffish oracle produces satisfies this. -/
def fenWellFormed (fen : String) : Prop :=
  (fenRanks fen).length ≤ 10 ∧
  ∀ rank ∈ fenRanks fen,
    (∀ c ∈ rank, c.isDigit ∨ (xqPieceMapping c).isSome) ∧ rankWidth rank ≤ 9

instance (fen : String) : Decidable (fenWellFormed fen) := by
  unfold fenWellFormed; infer_instance

/-- The number of pieces on the board encoded by a FEN string: its mapped
piece letters. -/
def fenPieceCount (fen : String) : Nat :=
  ((fenRanks fen).map rankPieces).sum

/-- The full index domain of a `(14, 10, 9)` observation tensor. -/
def D14 : Finset (Nat × Nat × Nat) :=
  Finset.range 14 ×ˢ Finset.range 10 ×ˢ Finset.range 9

/-- The full index domain of a `(12, 8, 8)` observation tensor. -/
def D12 : Finset (Nat × Nat × Nat) :=
  Finset.range 12 ×ˢ Finset.range 8 ×ˢ Finset.range 8

/-- A fold of `Function.update _ _ 1` at the keys a key function assigns to
the elements of a list; the common shape of all four observation loops. -/
def optUpdFold {α : Type} (kf : α → Option (Nat × Nat × Nat)) (l : List α) (f : Obs) : Obs :=
  l.foldl
    (fun g a =>
      match kf a with
      | some k => Function.update g k 1
      | none => g)
    f

theorem optUpdFold_cons {α : Type} (kf : α → Option (Nat × Nat × Nat)) (a : α) (l : List α)
    (f : Obs) :
    optUpdFold kf (a :: l) f =
      optUpdFold kf l
        (match kf a with
         | some k => Function.update f k 1
         | none => f) := rfl

theorem optUpdFold_cons_none {α : Type} {kf : α → Option (Nat × Nat × Nat)} {a : α}
    {l : List α} {f : Obs} (h : kf a = none) :
    optUpdFold kf (a :: l) f = optUpdFold kf l f := by
  rw [optUpdFold_cons, h]

theorem optUpdFold_cons_some {α : Type} {kf : α → Option (Nat × Nat × Nat)} {a : α}
    {l : List α} {f : Obs} {k : Nat × Nat × Nat} (h : kf a = some k) :
    optUpdFold kf (a :: l) f = optUpdFold kf l (Function.update f k 1) := by
  rw [optUpdFold_cons, h]

/-- Entries of an update fold stay in `{0, 1}`. -/
theorem optUpdFold_01 {α : Type} (kf : α → Option (Nat × Nat × Nat)) (l : List α) (f : Obs)
    (hf : ∀ j, f j = 0 ∨ f j = 1) :
    ∀ j, optUpdFold kf l f j = 0 ∨ optUpdFold kf l f j = 1 := by
  induction l generalizing f with
  | nil => exact hf
  | cons a l ih =>
    cases h : kf a with
    | none => rw [optUpdFold_cons_none h]; exact ih f hf
    | some k =>
      rw [optUpdFold_cons_some h]
      refine ih _ (fun j => ?_)
      rcases eq_or_ne j k with rfl | hj
      · right; simp
      · rw [Function.update_noteq hj]; exact hf j

/-- Summing an update fold over a domain containing all its keys: when the
keys are pairwise distinct and initially zero, each contributes exactly 1. -/
theorem optUpdFold_sum {α : Type} (kf : α → Option (Nat × Nat × Nat))
    (D : Finset (Nat × Nat × Nat)) (l : List α) (f : Obs)
    (hk : ∀ a ∈ l, ∀ k, kf a = some k → k ∈ D ∧ f k = 0)
    (hpw : List.Pairwise (fun a b => ∀ k k', kf a = some k → kf b = some k' → k ≠ k') l) :
    ∑ i in D, optUpdFold kf l f i = (∑ i in D, f i) + l.countP (fun a => (kf a).isSome) := by
  induction l generalizing f with
  | nil => simp [optUpdFold]
  | cons a l ih =>
    rw [List.pairwise_cons] at hpw
    obtain ⟨hhead, hpw⟩ := hpw
    cases h : kf a with
    | none =>
      rw [optUpdFold_cons_none h,
        ih _ (fun b hb => hk b (List.mem_cons_of_mem a hb)) hpw, List.countP_cons]
      simp [h]
    | some k =>
      obtain ⟨hkD, hk0⟩ := hk a (List.mem_cons_self a l) k h
      have hupd : ∀ b ∈ l, ∀ k', kf b = some k' → k' ∈ D ∧ Function.update f k 1 k' = 0 := by
        intro b hb k' hb'
        obtain ⟨h1, h2⟩ := hk b (List.mem_cons_of_mem a hb) k' hb'
        refine ⟨h1, ?_⟩
        rw [Function.update_noteq (Ne.symm (hhead b hb k k' h hb'))]
        exact h2
      rw [optUpdFold_cons_some h, ih _ hupd hpw, List.countP_cons]
      have herase : ∑ x in D \ {k}, f x = ∑ x in D, f x := by
        refine Finset.sum_subset Finset.sdiff_subset ?_
        intro x hx hnx
        have hxk : x = k := by
          by_contra hne
          exact hnx (Finset.mem_sdiff.mpr ⟨hx, by simp [hne]⟩)
        rw [hxk]; exact hk0
      have hsum : ∑ i in D, Function.update f k 1 i = (∑ i in D, f i) + 1 := by
        rw [Finset.sum_update_of_mem hkD, herase]
        omega
      rw [hsum]
      simp only [h, Option.isSome_some, if_true]
      omega

/-- The key a square of a `ChessBoard` contributes to the observation
tensor, when occupied by a mapped piece. -/
def chessKey (lib : ChessLib Pos CMove) (s : ChessState Pos CMove) (sq : Nat) :
    Option (Nat × Nat × Nat) :=
  (lib.pieceAt s.board sq).bind fun pc =>
    (chessPlane pc).map fun pl => (pl, 7 - sq / 8, sq % 8)

/-- Planes of the chess dictionary are below 12. -/
theorem chessPlane_lt (pc : Nat × Bool) (pl : Nat) (h : chessPlane pc = some pl) : pl < 12 := by
  unfold chessPlane at h
  split at h <;> simp_all <;> omega

theorem chessObs_eq (lib : ChessLib Pos CMove) (s : ChessState Pos CMove)
    (hpc : ∀ sq pc, lib.pieceAt s.board sq = some pc → (chessPlane pc).isSome) :
    ChessBoard.to_observation lib s =
      .ok (optUpdFold (chessKey lib s) (List.range 64) (fun _ => 0)) := by
  suffices h : ∀ (l : List Nat) (f : Obs),
      (List.foldlM
        (fun obs sq =>
          match lib.pieceAt s.board sq with
          | none => .ok obs
          | some pc =>
            match chessPlane pc with
            | none => .error .keyError
            | some plane => .ok (Function.update obs (plane, 7 - sq / 8, sq % 8) 1))
        f l : Except PyErr Obs) = .ok (optUpdFold (chessKey lib s) l f) from
    h (List.range 64) (fun _ => 0)
  intro l
  induction l with
  | nil => intro f; rfl
  | cons sq l ih =>
    intro f
    rw [List.foldlM_cons, optUpdFold_cons]
    cases hp : lib.pieceAt s.board sq with
    | none => simp only [chessKey, hp, Option.none_bind]; exact ih f
    | some pc =>
      cases hpl : chessPlane pc with
      | none => exact absurd (hpc sq pc hp) (by simp [hpl])
      | some pl =>
        simp only [chessKey, hp, Option.some_bind, hpl, Option.map_some']
        exact ih _

/-- Distinct squares contribute distinct keys (the row/column pair
determines the square). -/
theorem chessKey_pairwise (lib : ChessLib Pos CMove) (s : ChessState Pos CMove) :
    List.Pairwise
      (fun a b => ∀ k k', chessKey lib s a = some k → chessKey lib s b = some k' → k ≠ k')
      (List.range 64) := by
  refine List.Pairwise.imp_of_mem ?_ (List.pairwise_lt_range 64)
  intro a b ha hb hlt k k' hk hk' heq
  have ha64 : a < 64 := List.mem_range.mp ha
  have hb64 : b < 64 := List.mem_range.mp hb
  obtain ⟨pca, hpca, hka⟩ := Option.bind_eq_some.mp hk
  obtain ⟨pla, hpla, hka'⟩ := Option.map_eq_some'.mp hka
  obtain ⟨pcb, hpcb, hkb⟩ := Option.bind_eq_some.mp hk'
  obtain ⟨plb, hplb, hkb'⟩ := Option.map_eq_some'.mp hkb
  subst heq
  rw [← hka'] at hkb'
  have h2 : 7 - a / 8 = 7 - b / 8 := congrArg (fun t => t.2.1) hkb'.symm
  have h3 : a % 8 = b % 8 := congrArg (fun t => t.2.2) hkb'.symm
  omega

theorem chessKey_mem_D12 (lib : ChessLib Pos CMove) (s : ChessState Pos CMove)
    (sq : Nat) (k : Nat × Nat × Nat) (hsq : sq < 64) (h : chessKey lib s sq = some k) :
    k ∈ D12 := by
  obtain ⟨pc, hpc, hk⟩ := Option.bind_eq_some.mp h
  obtain ⟨pl, hpl, hk'⟩ := Option.map_eq_some'.mp hk
  have := chessPlane_lt pc pl hpl
  subst hk'
  simp only [D12, Finset.mem_product, Finset.mem_range]
  exact ⟨this, by omega, by omega⟩

/-- `C9` chess part, packaged: with every piece mapped (as all
`python-chess` pieces are), `to_observation` succeeds, every entry is 0 or
1, and the tensor's total equals the number of occupied squares. -/
theorem chessObs_props (lib : ChessLib Pos CMove) (s : ChessState Pos CMove)
    (hpc : ∀ sq pc, lib.pieceAt s.board sq = some pc → (chessPlane pc).isSome) :
    ∃ f, ChessBoard.to_observation lib s = .ok f ∧
      (∀ j, f j = 0 ∨ f j = 1) ∧
      ∑ i in D12, f i = chessNumPieces lib s := by
  refine ⟨_, chessObs_eq lib s hpc, optUpdFold_01 _ _ _ (fun j => Or.inl rfl), ?_⟩
  rw [optUpdFold_sum (chessKey lib s) D12 (List.range 64) _
      (fun sq hsq k hk => ⟨chessKey_mem_D12 lib s sq k (List.mem_range.mp hsq) hk, rfl⟩)
      (chessKey_pairwise lib s)]
  simp only [Finset.sum_const_zero, Nat.zero_add]
  unfold chessNumPieces
  refine List.countP_congr ?_
  intro sq _
  cases hp : lib.pieceAt s.board sq with
  | none => simp [chessKey, hp]
  | some pc =>
    have := hpc sq pc hp
    cases hpl : chessPlane pc with
    | none => rw [hpl] at this; simp at this
    | some pl => simp [chessKey, hp, hpl]

/-- Folding over `a :: l` in the `Except` monad, when the first step
succeeds. -/
theorem exceptFoldlM_cons_ok {ε σ α : Type} {f : σ → α → Except ε σ} {b : σ} {a : α}
    (l : List α) (b' : σ) (h : f b a = .ok b') :
    List.foldlM f b (a :: l) = List.foldlM f b' l := by
  rw [List.foldlM_cons, h]
  rfl

/-- Summing one fresh update over a domain containing its key. -/
theorem sum_update_zero (D : Finset (Nat × Nat × Nat)) (f : Obs) (k : Nat × Nat × Nat)
    (hkD : k ∈ D) (hk0 : f k = 0) :
    ∑ i in D, Function.update f k 1 i = (∑ i in D, f i) + 1 := by
  have herase : ∑ x in D \ {k}, f x = ∑ x in D, f x := by
    refine Finset.sum_subset Finset.sdiff_subset ?_
    intro x hx hnx
    have hxk : x = k := by
      by_contra hne
      exact hnx (Finset.mem_sdiff.mpr ⟨hx, by simp [hne]⟩)
    rw [hxk]; exact hk0
  rw [Finset.sum_update_of_mem hkD, herase]
  omega

/-- The key a cell of the native board contributes to the observation
tensor. -/
def xqKey (s : XQBState) (rc : Nat × Nat) : Option (Nat × Nat × Nat) :=
  if gridGet s.board rc.1 rc.2 = 0 then none
  else some (xqPlane (gridGet s.board rc.1 rc.2), rc.1, rc.2)

theorem xqCells_nodup : xqCells.Nodup := by decide

theorem xqCells_bounds : ∀ rc ∈ xqCells, rc.1 < 10 ∧ rc.2 < 9 := by decide

/-- Grid entries of legitimate Xiangqi piece codes yield planes below 14. -/
theorem xqPlane_lt (p : Int) (h1 : -7 ≤ p) (h2 : p ≤ 7) : xqPlane p < 14 := by
  unfold xqPlane
  split <;> omega

theorem xqObs_eq (s : XQBState)
    (hb : ∀ rc ∈ xqCells, xqPlane (gridGet s.board rc.1 rc.2) < 14) :
    XiangqiBoard.to_observation s = .ok (optUpdFold (xqKey s) xqCells (fun _ => 0)) := by
  suffices h : ∀ l : List (Nat × Nat),
      (∀ rc ∈ l, xqPlane (gridGet s.board rc.1 rc.2) < 14) →
      ∀ f : Obs,
      (List.foldlM
        (fun obs rc =>
          let piece := gridGet s.board rc.1 rc.2
          if piece = 0 then .ok obs
          else
            let plane := xqPlane piece
            if plane < 14 then .ok (Function.update obs (plane, rc.1, rc.2) 1)
            else .error .indexError)
        f l : Except PyErr Obs) = .ok (optUpdFold (xqKey s) l f) from
    h xqCells hb (fun _ => 0)
  intro l
  induction l with
  | nil => intro _ f; rfl
  | cons rc l ih =>
    intro hl f
    by_cases hz : gridGet s.board rc.1 rc.2 = 0
    · rw [exceptFoldlM_cons_ok l f (by simp [hz]),
        optUpdFold_cons_none (show xqKey s rc = none by simp [xqKey, hz])]
      exact ih (fun b hb' => hl b (List.mem_cons_of_mem rc hb')) f
    · have hpl := hl rc (List.mem_cons_self rc l)
      rw [exceptFoldlM_cons_ok l
          (Function.update f (xqPlane (gridGet s.board rc.1 rc.2), rc.1, rc.2) 1)
          (by simp [hz, hpl]),
        optUpdFold_cons_some
          (show xqKey s rc = some (xqPlane (gridGet s.board rc.1 rc.2), rc.1, rc.2) by
            simp [xqKey, hz])]
      exact ih (fun b hb' => hl b (List.mem_cons_of_mem rc hb')) _

theorem xqKey_pairwise (s : XQBState) :
    List.Pairwise
      (fun a b => ∀ k k', xqKey s a = some k → xqKey s b = some k' → k ≠ k') xqCells := by
  refine List.Pairwise.imp ?_ xqCells_nodup
  intro a b hab k k' hk hk' heq
  unfold xqKey at hk hk'
  split at hk
  · exact absurd hk (by simp)
  · split at hk'
    · exact absurd hk' (by simp)
    · have h1 : (xqPlane (gridGet s.board a.1 a.2), a.1, a.2) = k := Option.some_inj.mp hk
      have h2 : (xqPlane (gridGet s.board b.1 b.2), b.1, b.2) = k' := Option.some_inj.mp hk'
      have hcomp := h1.trans (heq.trans h2.symm)
      apply hab
      have ha1 : a.1 = b.1 := congrArg (fun t : Nat × Nat × Nat => t.2.1) hcomp
      have ha2 : a.2 = b.2 := congrArg (fun t : Nat × Nat × Nat => t.2.2) hcomp
      exact Prod.ext ha1 ha2

/-- `C9` native-stub part, packaged: with all grid entries legitimate piece
codes, `to_observation` succeeds, every entry is 0 or 1, and the total
equals the number of nonzero cells. -/
theorem xqObs_props (s : XQBState)
    (hb : ∀ rc ∈ xqCells, -7 ≤ gridGet s.board rc.1 rc.2 ∧ gridGet s.board rc.1 rc.2 ≤ 7) :
    ∃ f, XiangqiBoard.to_observation s = .ok f ∧
      (∀ j, f j = 0 ∨ f j = 1) ∧
      ∑ i in D14, f i = xqNumPieces s := by
  have hpl : ∀ rc ∈ xqCells, xqPlane (gridGet s.board rc.1 rc.2) < 14 := fun rc hrc =>
    xqPlane_lt _ (hb rc hrc).1 (hb rc hrc).2
  refine ⟨_, xqObs_eq s hpl, optUpdFold_01 _ _ _ (fun j => Or.inl rfl), ?_⟩
  rw [optUpdFold_sum (xqKey s) D14 xqCells _ ?_ (xqKey_pairwise s)]
  · simp only [Finset.sum_const_zero, Nat.zero_add]
    unfold xqNumPieces
    refine List.countP_congr ?_
    intro rc _
    by_cases hz : gridGet s.board rc.1 rc.2 = 0 <;> simp [xqKey, hz]
  · intro rc hrc k hk
    unfold xqKey at hk
    split at hk
    · exact absurd hk (by simp)
    refine ⟨?_, rfl⟩
    obtain ⟨hr, hc⟩ := xqCells_bounds rc hrc
    have := hpl rc hrc
    rw [← Option.some_inj.mp hk]
    simp only [D14, Finset.mem_product, Finset.mem_range]
    exact ⟨this, hr, hc⟩

/-- A single update preserves 0/1-valued tensors. -/
theorem update_01 (f : Obs) (k : Nat × Nat × Nat) (hf : ∀ j, f j = 0 ∨ f j = 1) :
    ∀ j, Function.update f k 1 j = 0 ∨ Function.update f k 1 j = 1 := by
  intro j
  rcases eq_or_ne j k with rfl | hj
  · right; simp
  · rw [Function.update_noteq hj]; exact hf j

/-- Digits are not piece letters. -/
theorem xqPieceMapping_digit {c : Char} (hd : c.isDigit) : xqPieceMapping c = none := by
  unfold xqPieceMapping
  split <;> first
    | rfl
    | simp_all

/-- Mapped piece types are at most 6 (the 7 Xiangqi piece kinds). -/
theorem xqPieceMapping_fst_le {c : Char} {pb : Nat × Bool} (h : xqPieceMapping c = some pb) :
    pb.1 ≤ 6 := by
  unfold xqPieceMapping at h
  split at h <;> first
    | (cases h; simp)
    | simp_all

/-- One well-formed FEN rank of the scan: the character fold succeeds,
advances `file_idx` by the rank's rendered width, writes only into row
`rankIdx`, keeps entries in {0, 1}, and adds exactly one 1 per mapped piece
letter. -/
theorem fenObsStep_rank (shift rankIdx : Nat) (hs : shift ≤ 7) (hr : rankIdx < 10) :
    ∀ (chars : List Char) (f : Obs) (fileIdx : Nat),
      (∀ c ∈ chars, c.isDigit ∨ (xqPieceMapping c).isSome) →
      fileIdx + rankWidth chars ≤ 9 →
      (∀ p c, fileIdx ≤ c → f (p, rankIdx, c) = 0) →
      ∃ g, List.foldlM (fenObsStep shift rankIdx) (f, fileIdx) chars
          = .ok (g, fileIdx + rankWidth chars) ∧
        (∀ p r c, r ≠ rankIdx → g (p, r, c) = f (p, r, c)) ∧
        ((∀ j, f j = 0 ∨ f j = 1) → ∀ j, g j = 0 ∨ g j = 1) ∧
        ∑ i in D14, g i = (∑ i in D14, f i) + rankPieces chars := by
  intro chars
  induction chars with
  | nil =>
    intro f fileIdx _ _ _
    refine ⟨f, ?_, fun _ _ _ _ => rfl, fun h => h, by simp [rankPieces]⟩
    simp only [List.foldlM_nil, rankWidth, List.map_nil, List.sum_nil, Nat.add_zero]
    rfl
  | cons c cs ih =>
    intro f fileIdx hwf hbound hz
    have hwcons : rankWidth (c :: cs) =
        (if c.isDigit then c.toNat - 48 else 1) + rankWidth cs := by
      simp [rankWidth]
    by_cases hd : c.isDigit
    · have hstep : fenObsStep shift rankIdx (f, fileIdx) c
          = .ok (f, fileIdx + (c.toNat - 48)) := by
        simp [fenObsStep, hd]
      rw [exceptFoldlM_cons_ok cs (f, fileIdx + (c.toNat - 48)) hstep]
      simp [hd] at hwcons
      obtain ⟨g, h1, h2, h3, h4⟩ := ih f (fileIdx + (c.toNat - 48))
        (fun c' hc' => hwf c' (List.mem_cons_of_mem c hc'))
        (by omega)
        (fun p cc hcc => hz p cc (by omega))
      have hidx : fileIdx + (c.toNat - 48) + rankWidth cs = fileIdx + rankWidth (c :: cs) := by
        omega
      rw [hidx] at h1
      refine ⟨g, h1, h2, h3, ?_⟩
      rw [h4]
      have hp : rankPieces (c :: cs) = rankPieces cs := by
        simp [rankPieces, List.countP_cons, xqPieceMapping_digit hd]
      omega
    · have hsome := (hwf c (List.mem_cons_self c cs)).resolve_left hd
      obtain ⟨pb, hpb⟩ := Option.isSome_iff_exists.mp hsome
      have hpt : pb.1 ≤ 6 := xqPieceMapping_fst_le hpb
      have hplane : (if pb.2 then pb.1 else pb.1 + shift) < 14 := by
        split <;> omega
      simp [hd] at hwcons
      have hfile : fileIdx < 9 := by omega
      have hstep : fenObsStep shift rankIdx (f, fileIdx) c
          = .ok (Function.update f
              ((if pb.2 then pb.1 else pb.1 + shift), rankIdx, fileIdx) 1,
            fileIdx + 1) := by
        simp [fenObsStep, hd, hpb, hplane, hr, hfile]
      rw [exceptFoldlM_cons_ok cs _ hstep]
      have hkD : (((if pb.2 then pb.1 else pb.1 + shift), rankIdx, fileIdx) :
          Nat × Nat × Nat) ∈ D14 := by
        simp only [D14, Finset.mem_product, Finset.mem_range]
        exact ⟨hplane, hr, hfile⟩
      have hz' : ∀ p cc, fileIdx + 1 ≤ cc →
          Function.update f ((if pb.2 then pb.1 else pb.1 + shift), rankIdx, fileIdx) 1
            (p, rankIdx, cc) = 0 := by
        intro p cc hcc
        rw [Function.update_noteq
          (fun heq => absurd (congrArg (fun t : Nat × Nat × Nat => t.2.2) heq) (by
            simp only []
            omega))]
        exact hz p cc (by omega)
      obtain ⟨g, h1, h2, h3, h4⟩ := ih _ (fileIdx + 1)
        (fun c' hc' => hwf c' (List.mem_cons_of_mem c hc'))
        (by omega)
        hz'
      have hidx : fileIdx + 1 + rankWidth cs = fileIdx + rankWidth (c :: cs) := by
        omega
      rw [hidx] at h1
      refine ⟨g, h1, ?_, ?_, ?_⟩
      · intro p r cc hrr
        rw [h2 p r cc hrr, Function.update_noteq
          (fun heq => hrr (congrArg (fun t : Nat × Nat × Nat => t.2.1) heq))]
      · exact fun hf => h3 (update_01 f _ hf)
      · rw [h4, sum_update_zero D14 f _ hkD (hz _ _ le_rfl)]
        have hp : rankPieces (c :: cs) = rankPieces cs + 1 := by
          simp [rankPieces, List.countP_cons, hpb]
        omega

/-- The rank loop of the FEN observation scan, over well-formed ranks. -/
theorem fenObsRanks (shift : Nat) (hs : shift ≤ 7) :
    ∀ (ranks : List (List Char)) (f : Obs) (rankIdx : Nat),
      rankIdx + ranks.length ≤ 10 →
      (∀ rank ∈ ranks,
        (∀ c ∈ rank, c.isDigit ∨ (xqPieceMapping c).isSome) ∧ rankWidth rank ≤ 9) →
      (∀ p r c, rankIdx ≤ r → f (p, r, c) = 0) →
      (∀ j, f j = 0 ∨ f j = 1) →
      ∃ g, List.foldlM (fenObsRankStep shift) (f, rankIdx) ranks
          = .ok (g, rankIdx + ranks.length) ∧
        (∀ j, g j = 0 ∨ g j = 1) ∧
        ∑ i in D14, g i = (∑ i in D14, f i) + ((ranks.map rankPieces).sum) := by
  intro ranks
  induction ranks with
  | nil =>
    intro f rankIdx _ _ _ h01
    refine ⟨f, ?_, h01, by simp⟩
    simp only [List.foldlM_nil, List.length_nil, Nat.add_zero]
    rfl
  | cons rank rest ih =>
    intro f rankIdx hlen hwf hz h01
    rw [List.length_cons] at hlen
    have hr : rankIdx < 10 := by omega
    obtain ⟨g, h1, h2, h3, h4⟩ := fenObsStep_rank shift rankIdx hs hr rank f 0
      (hwf rank (List.mem_cons_self rank rest)).1
      (by simpa using (hwf rank (List.mem_cons_self rank rest)).2)
      (fun p c _ => hz p rankIdx c le_rfl)
    have hstep : fenObsRankStep shift (f, rankIdx) rank = .ok (g, rankIdx + 1) := by
      unfold fenObsRankStep
      rw [h1]
      rfl
    rw [exceptFoldlM_cons_ok rest (g, rankIdx + 1) hstep]
    have hz2 : ∀ p r c, rankIdx + 1 ≤ r → g (p, r, c) = 0 := by
      intro p r c hrc
      rw [h2 p r c (by omega)]
      exact hz p r c (by omega)
    obtain ⟨g2, k1, k2, k3⟩ := ih g (rankIdx + 1) (by omega)
      (fun rk hrk => hwf rk (List.mem_cons_of_mem rank hrk)) hz2 (h3 h01)
    have hidx : rankIdx + 1 + rest.length = rankIdx + (rank :: rest).length := by
      rw [List.length_cons]; omega
    rw [hidx] at k1
    refine ⟨g2, k1, k2, ?_⟩
    rw [k3, h4, List.map_cons, List.sum_cons]
    omega

/-- `C9` FEN-board part, packaged: on a well-formed FEN both FEN-parsing
observation builders succeed, every entry is 0 or 1, and the total equals
the number of piece letters in the FEN. -/
theorem fenObs_props (shift : Nat) (hs : shift ≤ 7) (fen : String)
    (hwf : fenWellFormed fen) :
    ∃ f, fenObsAux shift (fenRanks fen) = .ok f ∧
      (∀ j, f j = 0 ∨ f j = 1) ∧ ∑ i in D14, f i = fenPieceCount fen := by
  obtain ⟨hlen, hranks⟩ := hwf
  obtain ⟨g, h1, h2, h3⟩ := fenObsRanks shift hs (fenRanks fen) (fun _ => 0) 0
    (by omega) hranks (fun _ _ _ _ => rfl) (fun _ => Or.inl rfl)
  refine ⟨g, ?_, h2, ?_⟩
  · unfold fenObsAux
    rw [h1]
    rfl
  · simpa [fenPieceCount] using h3

instance {ε α : Type} [DecidableEq ε] [DecidableEq α] : DecidableEq (Except ε α) := fun a b =>
  match a, b with
  | .ok x, .ok y =>
    if h : x = y then isTrue (by rw [h]) else isFalse (by simp [h])
  | .error e, .error e' =>
    if h : e = e' then isTrue (by rw [h]) else isFalse (by simp [h])
  | .ok _, .error _ => isFalse (by simp)
  | .error _, .ok _ => isFalse (by simp)

/-- The side to move encoded in a FEN string's second field
(`'w'` = red/first player, `'b'` = black/second player). -/
def fenSide (fen : String) : Option Bool :=
  match fenField1 fen with
  | .ok c => if c = "w" then some true else if c = "b" then some false else none
  | .error _ => none

/-- Inversion of a successful `ChessBoard.apply_move`: the move was legal,
the board advanced by `push`, and the history grew by the move. -/
theorem ChessBoard.apply_move_ok_inv [DecidableEq CMove] {lib : ChessLib Pos CMove}
    {s s' : ChessState Pos CMove} {m : CMove} {rd : Int × Bool}
    (h : ChessBoard.apply_move lib s m = (.ok rd, s')) :
    m ∈ lib.legalMoves s.board ∧ s'.board = lib.push s.board m ∧
      s'.move_history = s.move_history ++ [m] := by
  unfold ChessBoard.apply_move at h
  split at h
  · dsimp only at h
    split at h <;>
    · rw [Prod.mk.injEq] at h
      refine ⟨by assumption, ?_, ?_⟩ <;> rw [← h.2]
  · exact absurd (congrArg Prod.fst h) (by simp)

/-- A legal move always applies successfully on a `ChessBoard`. -/
theorem ChessBoard.apply_move_mem_ok [DecidableEq CMove] (lib : ChessLib Pos CMove)
    (s : ChessState Pos CMove) (m : CMove) (hm : m ∈ lib.legalMoves s.board) :
    ∃ rd s', ChessBoard.apply_move lib s m = (.ok rd, s') ∧
      s'.move_history = s.move_history ++ [m] := by
  unfold ChessBoard.apply_move
  rw [if_pos hm]
  by_cases hg : lib.isGameOver (lib.push s.board m)
  · rw [if_pos hg]; exact ⟨_, _, rfl, rfl⟩
  · rw [if_neg hg]; exact ⟨_, _, rfl, rfl⟩

/-- Inversion of a successful `XiangqiPyffishBoard.apply_move`: the oracle
produced the next FEN, which becomes `current_fen`, and the history grew. -/
theorem XiangqiPyffishBoard.apply_ok_inv {o : XOracle} {s s' : XPBState}
    {mv : String} {rd : Int × Bool}
    (h : XiangqiPyffishBoard.apply_move o s mv = (.ok rd, s')) :
    ∃ fen', o.getFen s.current_fen mv = .ok fen' ∧ s'.current_fen = fen' ∧
      s'.move_history = s.move_history ++ [mv] := by
  unfold XiangqiPyffishBoard.apply_move at h
  split at h
  · exact absurd (congrArg Prod.fst h) (by simp)
  · split at h
    · dsimp only at h
      split at h
      · exact absurd (congrArg Prod.fst h) (by simp)
      · rename_i fen' hfen
        rw [Prod.mk.injEq] at h
        refine ⟨fen', hfen, ?_, ?_⟩ <;> rw [← h.2]
    · exact absurd (congrArg Prod.fst h) (by simp)

/-- Inversion of a successful `SimpleXiangqiBoard.make_move`. -/
theorem SimpleXiangqiBoard.make_move_ok_inv {o : XOracle} {s s' : XPBState}
    {mv : String} {rd : Int × Bool}
    (h : SimpleXiangqiBoard.make_move o s mv = (.ok rd, s')) :
    ∃ fen', o.getFen s.current_fen mv = .ok fen' ∧ s'.current_fen = fen' ∧
      s'.move_history = s.move_history ++ [mv] := by
  unfold SimpleXiangqiBoard.make_move at h
  by_cases hm : mv ∈ SimpleXiangqiBoard.get_legal_moves o s
  · rw [if_pos hm] at h
    split at h
    · exact absurd (congrArg Prod.fst h) (by simp)
    · rename_i fen' hfen
      dsimp only at h
      rw [Prod.mk.injEq] at h
      refine ⟨fen', hfen, ?_, ?_⟩ <;> rw [← h.2]
  · rw [if_neg hm] at h
    exact absurd (congrArg Prod.fst h) (by simp)

/-- Python negative indexing inside `[-len, 0)` hits the element counted
from the end. -/
theorem pyListGet_neg_ok {α : Type} (l : List α) (i : Int)
    (h1 : -(l.length : Int) ≤ i) (h2 : i < 0) :
    ∃ a, pyListGet l i = .ok a ∧ l.get? ((l.length : Int) + i).toNat = some a := by
  unfold pyListGet
  rw [if_pos h2, if_pos (by constructor <;> omega)]
  have hlt : (((l.length : Int) + i).toNat) < l.length := by omega
  rw [List.get?_eq_get hlt]
  exact ⟨_, rfl, rfl⟩

/-! ## Concrete demonstration backends

Small concrete instances of the abstract `python-chess` / `pyffish` records,
used by the witnesses and counterexamples to evaluate the wrapper code on
closed inputs. -/

/-- A toy chess backend: a position is just the side to move, moves are
numbers, every position offers the two moves 10 and 11, `push` flips the
side, no position is over, and one white king sits on square 0. -/
def demoChessLib : ChessLib Bool Nat :=
  { start := true
    turn := fun p => p
    legalMoves := fun _ => [10, 11]
    isCheck := fun _ => false
    push := fun p _ => !p
    isGameOver := fun _ => false
    outcome := fun _ => none
    pieceAt := fun _ sq => if sq = 0 then some (6, true) else none
    fen := fun p => if p then "w" else "b" }

/-- The demo chess environment over `demoChessLib`. -/
def demoChessEnv : ChessEnvState Bool Nat := ChessEnv.init demoChessLib 400

/-- An oracle describing a position where black mates in one: from
`"posB b"` (black to move) the only move `"m1"` leads to `"posW w"`, where
red has no legal reply. -/
def mateOracle : XOracle :=
  { startFen := "posB b"
    legalMoves3 := fun f =>
      if f = "posB b" then .ok ["m1"]
      else if f = "posW w" then .ok []
      else .error (.oracleError "unknown position")
    legalMoves2 := fun _ => .error (.oracleError "unsupported signature")
    getFen := fun f m =>
      if f = "posB b" ∧ m = "m1" then .ok "posW w"
      else .error (.oracleError "illegal") }

/-- A two-position oracle whose `getFen` always flips the side encoded in
the FEN; every known position has the single move `"m"`. -/
def flipOracle : XOracle :=
  { startFen := "s w"
    legalMoves3 := fun f =>
      if f = "s w" ∨ f = "s b" then .ok ["m"] else .error (.oracleError "unknown position")
    legalMoves2 := fun _ => .error (.oracleError "unsupported signature")
    getFen := fun f m =>
      if f = "s w" ∧ m = "m" then .ok "s b"
      else if f = "s b" ∧ m = "m" then .ok "s w"
      else .error (.oracleError "illegal") }

/-- An oracle whose every query raises. -/
def downOracle : XOracle :=
  { startFen := "d w"
    legalMoves3 := fun _ => .error (.oracleError "backend unavailable")
    legalMoves2 := fun _ => .error (.oracleError "backend unavailable")
    getFen := fun _ _ => .error (.oracleError "backend unavailable") }

/-- An oracle that enumerates one move but fails on the mutating
next-position call. -/
def writeFailOracle : XOracle :=
  { startFen := "w w"
    legalMoves3 := fun _ => .ok ["m"]
    legalMoves2 := fun _ => .error (.oracleError "unsupported signature")
    getFen := fun _ _ => .error (.oracleError "write failure") }

/-- An oracle that plays one move fine but whose legal-move queries fail
(under both signatures) on the resulting position. -/
def readFailAfterOracle : XOracle :=
  { startFen := "a w"
    legalMoves3 := fun f =>
      if f = "a w" then .ok ["m"] else .error (.oracleError "backend down")
    legalMoves2 := fun _ => .error (.oracleError "backend down")
    getFen := fun f m =>
      if f = "a w" ∧ m = "m" then .ok "b b" else .error (.oracleError "illegal") }

/-- An oracle reporting no legal moves anywhere. -/
def emptyOracle : XOracle :=
  { startFen := "e w"
    legalMoves3 := fun _ => .ok []
    legalMoves2 := fun _ => .error (.oracleError "unsupported signature")
    getFen := fun _ _ => .error (.oracleError "illegal") }

/-! ## The claims -/

/-- `C1`: the claim says `apply_move` returns `+1.0` when the side that
just moved has won, for every Board variant.  `XiangqiPyffishBoard`
violates it: on a terminal move the code returns
`1 if prev_player else -1`, where `prev_player` is *"the previous player
was red"* — the sign is fixed to red's perspective, not the mover's.  Here
black (side to move of the start FEN `"posB b"`) plays the only legal move,
the opponent has no replies, the stored result names black as the winner
("the player who just moved won", per the code's own comment), yet the
returned reward is `-1`, contradicting the claim and the method's
docstring ("reward is 1 for winning moves"). -/
theorem C1_pyffish_terminal_reward_fixed_to_red :
    fenSide (XiangqiPyffishBoard.resetState mateOracle).current_fen = some false ∧
    XiangqiPyffishBoard.apply_move mateOracle (XiangqiPyffishBoard.resetState mateOracle) "m1" =
      (.ok (-1, true),
       { current_fen := "posW w", move_history := ["m1"],
         result := some { winner := "black", termination := "checkmate" } }) := by
  constructor
  · rfl
  · rfl

/-- `C2`: an illegal move (one not in the current `legal_moves()` result)
is rejected with the illegal-move `ValueError` and the board state is
returned unchanged — hence `get_state_hash()` (a pure function of the
state) and `move_history` are unchanged — for all four board variants.
For the oracle boards the hypothesis fixes the legal-move list the
validation reads; the native stub's list is always empty, so there every
move is rejected. -/
theorem C2_illegal_move_rejected_state_unchanged {Pos CMove : Type} [DecidableEq CMove] :
    (∀ (lib : ChessLib Pos CMove) (s : ChessState Pos CMove) (m : CMove),
      m ∉ lib.legalMoves s.board →
        ChessBoard.apply_move lib s m = (.error (.valueError "Illegal move"), s)) ∧
    (∀ (o : XOracle) (s : XPBState) (mv : String) (legal : List String),
      XiangqiPyffishBoard.get_legal_moves o s = .ok legal → mv ∉ legal →
        XiangqiPyffishBoard.apply_move o s mv = (.error (.valueError "Illegal move"), s)) ∧
    (∀ (o : XOracle) (s : XPBState) (mv : String),
      mv ∉ SimpleXiangqiBoard.get_legal_moves o s →
        SimpleXiangqiBoard.make_move o s mv = (.error (.valueError "Illegal move"), s)) ∧
    (∀ (s : XQBState) (m : XiangqiMove),
      m ∉ XiangqiBoard.get_legal_moves s none →
        XiangqiBoard.apply_move s m = (.error (.valueError "Illegal move"), s)) := by
  refine ⟨?_, ?_, ?_, ?_⟩
  · intro lib s m hm
    unfold ChessBoard.apply_move
    rw [if_neg hm]
  · intro o s mv legal hleg hmv
    have hcompat : sfLegalMovesCompat o s.current_fen = .ok legal := by
      unfold XiangqiPyffishBoard.get_legal_moves at hleg
      split at hleg
      · exact absurd hleg (by simp)
      · exact hleg
    unfold XiangqiPyffishBoard.apply_move
    rw [hcompat]
    dsimp only
    rw [if_neg hmv]
  · intro o s mv hmv
    unfold SimpleXiangqiBoard.make_move
    rw [if_neg hmv]
  · intro s m hm
    unfold XiangqiBoard.apply_move
    rw [if_neg hm]

/-- Witness for `C2`: a move outside the legal list of each concrete
backend is rejected with the state unchanged. -/
theorem C2_witness :
    ((2 : Nat) ∉ demoChessLib.legalMoves (ChessBoard.resetState demoChessLib).board) ∧
    ChessBoard.apply_move demoChessLib (ChessBoard.resetState demoChessLib) 2 =
      (.error (.valueError "Illegal move"), ChessBoard.resetState demoChessLib) ∧
    XiangqiPyffishBoard.get_legal_moves mateOracle
      (XiangqiPyffishBoard.resetState mateOracle) = .ok ["m1"] ∧
    ("zz" ∉ ["m1"]) ∧
    XiangqiPyffishBoard.apply_move mateOracle (XiangqiPyffishBoard.resetState mateOracle) "zz" =
      (.error (.valueError "Illegal move"), XiangqiPyffishBoard.resetState mateOracle) := by
  refine ⟨by decide, ?_, by rfl, by decide, ?_⟩
  · exact (@C2_illegal_move_rejected_state_unchanged Bool Nat _).1 demoChessLib _ 2 (by decide)
  · exact (@C2_illegal_move_rejected_state_unchanged Bool Nat _).2.1 mateOracle _ "zz" ["m1"]
      (by rfl) (by decide)

/-- `C3` counterexample: the claim says `step` fails for every
`action_index` outside `[0, len(legal_moves))`, "for negative indices as
well".  The code only checks `action >= len(legal_moves)`; a negative index
reaches Python list indexing, which counts from the end.  On the demo
backend (two legal moves), `step(-1)` succeeds, applies the *last* legal
move (11), and returns a normal transition instead of raising. -/
theorem C3_counterexample :
    ((-1 : Int) < 0) ∧
    (ChessEnv.step demoChessLib demoChessEnv (-1)).1 = .ok (0, false, false) ∧
    (ChessEnv.step demoChessLib demoChessEnv (-1)).2.board.move_history = [11] := by
  refine ⟨by decide, ?_, ?_⟩ <;> rfl

/-- `C3` amended: `step` raises the invalid-action `ValueError` exactly for
`action >= len(legal_moves)` and leaves the environment unchanged (for both
environments); but a negative action in `[-len, -1]` is *not* rejected:
Python list indexing decodes it from the end of the legal-move list and the
move is applied (the history grows by that move). -/
theorem C3_amended {Pos CMove : Type} [DecidableEq CMove] :
    (∀ (lib : ChessLib Pos CMove) (e : ChessEnvState Pos CMove) (action : Int),
      ((ChessBoard.get_legal_moves lib e.board none).length : Int) ≤ action →
        ChessEnv.step lib e action = (.error (.valueError "Invalid action index"), e)) ∧
    (∀ (lib : ChessLib Pos CMove) (e : ChessEnvState Pos CMove) (action : Int),
      action < 0 → -((ChessBoard.get_legal_moves lib e.board none).length : Int) ≤ action →
        ∃ m out e', pyListGet (ChessBoard.get_legal_moves lib e.board none) action = .ok m ∧
          ChessEnv.step lib e action = (.ok out, e') ∧
          e'.board.move_history = e.board.move_history ++ [m]) ∧
    (∀ (e : XQEnvState) (action : Int),
      ((XiangqiBoard.get_legal_moves e.board none).length : Int) ≤ action →
        XiangqiEnv.step e action = (.error (.valueError "Invalid action index"), e)) := by
  refine ⟨?_, ?_, ?_⟩
  · intro lib e action h
    unfold ChessEnv.step
    rw [if_pos h]
  · intro lib e action hneg hge
    obtain ⟨m, hget, hsome⟩ := pyListGet_neg_ok _ action hge hneg
    have hmem : m ∈ ChessBoard.get_legal_moves lib e.board none := by
      have := List.get?_mem hsome
      exact this
    have hmem' : m ∈ lib.legalMoves e.board.board := by
      simpa [ChessBoard.get_legal_moves] using hmem
    obtain ⟨rd, s', happ, hhist⟩ := ChessBoard.apply_move_mem_ok lib e.board m hmem'
    refine ⟨m, (rd.1, rd.2, decide (e.max_steps ≤ e.steps + 1)),
      { e with board := s', steps := e.steps + 1, current_player := ! e.current_player },
      hget, ?_, by simp [hhist]⟩
    unfold ChessEnv.step
    rw [if_neg (by
      have : (0 : Int) ≤ (ChessBoard.get_legal_moves lib e.board none).length := by positivity
      omega)]
    rw [hget]
    dsimp only
    rw [happ]
  · intro e action h
    unfold XiangqiEnv.step
    rw [if_pos h]

/-- Witness for `C3` (amended): on the demo backend, `step(5)` with two
legal moves raises and leaves the environment unchanged; `step(-1)` decodes
a move and applies it; the Xiangqi environment rejects action 0 over its
empty legal-move list. -/
theorem C3_witness :
    (((ChessBoard.get_legal_moves demoChessLib demoChessEnv.board none).length : Int) ≤ 5 ∧
      ChessEnv.step demoChessLib demoChessEnv 5 =
        (.error (.valueError "Invalid action index"), demoChessEnv)) ∧
    ((-1 : Int) < 0 ∧
      -((ChessBoard.get_legal_moves demoChessLib demoChessEnv.board none).length : Int) ≤ -1 ∧
      ∃ m out e', pyListGet (ChessBoard.get_legal_moves demoChessLib demoChessEnv.board none)
          (-1) = .ok m ∧
        ChessEnv.step demoChessLib demoChessEnv (-1) = (.ok out, e') ∧
        e'.board.move_history = demoChessEnv.board.move_history ++ [m]) ∧
    (((XiangqiBoard.get_legal_moves (XiangqiEnv.init 400).board none).length : Int) ≤ 0 ∧
      XiangqiEnv.step (XiangqiEnv.init 400) 0 =
        (.error (.valueError "Invalid action index"), XiangqiEnv.init 400)) := by
  refine ⟨⟨by decide, ?_⟩, ⟨by decide, by decide, ?_⟩, ⟨by decide, ?_⟩⟩
  · exact (@C3_amended Bool Nat _).1 demoChessLib demoChessEnv 5 (by decide)
  · exact (@C3_amended Bool Nat _).2.1 demoChessLib demoChessEnv (-1) (by decide) (by decide)
  · exact (@C3_amended Bool Nat _).2.2 (XiangqiEnv.init 400) 0 (by decide)

/-- `str(rank)` for the ranks 1-8 is the single matching digit. -/
theorem pyIntStr_digit (d : Int) (h1 : 1 ≤ d) (h2 : d ≤ 8) : pyIntStr d = [48 + d] := by
  interval_cases d <;> decide

/-- Parsing the square notation emitted by `to_uci` recovers the index. -/
theorem squareToIndex_round (i : Int) (h1 : 0 ≤ i) (h2 : i < 64) :
    squareToIndex (97 + i % 8) (48 + (i / 8 + 1)) = .ok i := by
  unfold squareToIndex pyInt1
  rw [if_pos (by omega)]
  show Except.ok ((48 + (i / 8 + 1) - 48 - 1) * 8 + (97 + i % 8 - 97)) = Except.ok i
  exact congrArg Except.ok (by omega)

/-- Evaluation of `from_uci` on a string of at least 4 characters. -/
theorem from_uci_eq_cons (a b c d : Int) (rest : List Int) :
    Move.from_uci (a :: b :: c :: d :: rest) =
      (squareToIndex a b).bind fun fs =>
        (squareToIndex c d).bind fun ts =>
          if (a :: b :: c :: d :: rest).length = 5 then
            (pyStrGet (a :: b :: c :: d :: rest) 4).bind fun p =>
              pure { from_sq := fs, to_sq := ts, promotion := promotionMapGet (pyLower p),
                     metadata := none }
          else pure { from_sq := fs, to_sq := ts, promotion := none, metadata := none } := rfl

/-- `C4` counterexample: the claim quantifies over every `Move` with valid
squares and promotion, but `Move` equality (the frozen dataclass `__eq__`)
also compares the `metadata` field, which `from_uci` always leaves `None`.
A move carrying metadata therefore does not round-trip. -/
theorem C4_counterexample :
    Move.from_uci (Move.to_uci
        { from_sq := 0, to_sq := 1, promotion := none,
          metadata := some [("note", PyVal.str "x")] }) =
      .ok { from_sq := 0, to_sq := 1, promotion := none, metadata := none } ∧
    ({ from_sq := 0, to_sq := 1, promotion := none, metadata := none } : Move) ≠
      { from_sq := 0, to_sq := 1, promotion := none,
        metadata := some [("note", PyVal.str "x")] } := by
  exact ⟨rfl, by decide⟩

/-- `C4` amended: round-trip holds for every `Move` with square indices in
0..63, a promotion field that is `None` or a recognized code (5, 4, 3, 2),
and — additionally to the claim as stated — `metadata = None` (as all
parser-produced moves have). -/
theorem C4_roundtrip (m : Move) (h1 : 0 ≤ m.from_sq) (h2 : m.from_sq < 64)
    (h3 : 0 ≤ m.to_sq) (h4 : m.to_sq < 64)
    (h5 : m.promotion = none ∨ m.promotion = some 5 ∨ m.promotion = some 4 ∨
      m.promotion = some 3 ∨ m.promotion = some 2)
    (h6 : m.metadata = none) :
    Move.from_uci (Move.to_uci m) = .ok m := by
  obtain ⟨fs, ts, promo, meta⟩ := m
  simp only at h1 h2 h3 h4 h5 h6
  subst h6
  have hfr : pyIntStr (fs / 8 + 1) = [48 + (fs / 8 + 1)] :=
    pyIntStr_digit _ (by omega) (by omega)
  have htr : pyIntStr (ts / 8 + 1) = [48 + (ts / 8 + 1)] :=
    pyIntStr_digit _ (by omega) (by omega)
  unfold Move.to_uci indexToSquare
  dsimp only
  rw [hfr, htr]
  rcases h5 with h5 | h5 | h5 | h5 | h5 <;> subst h5 <;>
    simp only [List.cons_append, List.singleton_append, List.nil_append, ne_eq,
      OfNat.ofNat_ne_zero, not_false_eq_true, if_true, promotionStr] <;>
    rw [from_uci_eq_cons, squareToIndex_round fs h1 h2, squareToIndex_round ts h3 h4] <;>
    rfl

/-- Witness for `C4` (amended): the move `e2e4` promoting to a queen-coded
piece round-trips. -/
theorem C4_witness :
    ((0 : Int) ≤ 12 ∧ (12 : Int) < 64 ∧ (0 : Int) ≤ 28 ∧ (28 : Int) < 64) ∧
    Move.from_uci (Move.to_uci
        { from_sq := 12, to_sq := 28, promotion := some 5, metadata := none }) =
      .ok { from_sq := 12, to_sq := 28, promotion := some 5, metadata := none } := by
  refine ⟨by decide, ?_⟩
  exact C4_roundtrip _ (by decide) (by decide) (by decide) (by decide)
    (Or.inr (Or.inl rfl)) rfl

/-- `C5` counterexample: the claim says `from_uci` fails with a parse
error for characters that are not a valid file letter / rank digit in the
expected positions.  `"a9a9"` (code points `[97, 57, 97, 57]`) has rank
digit `9`, which is not a valid rank of an 8×8 board — yet `from_uci`
performs no range validation and silently returns a `Move` with the
out-of-range square index 64 (valid squares are 0..63). -/
theorem C5_counterexample :
    Move.from_uci [97, 57, 97, 57] =
      .ok { from_sq := 64, to_sq := 64, promotion := none, metadata := none } ∧
    ¬((64 : Int) < 64) := ⟨rfl, by decide⟩

/-- `C5` amended: `from_uci` raises only what the unguarded indexing and
`int()` calls raise — `IndexError` for strings shorter than 4 characters,
`ValueError` for a non-digit from-rank character; everything else is
accepted silently: in-alphabet characters denoting off-board squares
(`"a9a9"` → square 64) parse without error, and characters past the 5th
are ignored outright (`"e2e4xx"` parses as `e2e4`). -/
theorem C5_no_validation :
    (∀ s : PyStr, s.length < 4 → ∃ e, Move.from_uci s = .error e) ∧
    (∀ (a b c d : Int) (rest : List Int), ¬(48 ≤ b ∧ b ≤ 57) →
      Move.from_uci (a :: b :: c :: d :: rest) =
        .error (.valueError "invalid literal for int")) ∧
    (Move.from_uci [97, 57, 97, 57] =
      .ok { from_sq := 64, to_sq := 64, promotion := none, metadata := none }) ∧
    (Move.from_uci [101, 50, 101, 52, 120, 120] =
      .ok { from_sq := 12, to_sq := 28, promotion := none, metadata := none }) := by
  refine ⟨?_, ?_, rfl, rfl⟩
  · intro s hs
    match s with
    | [] => exact ⟨.indexError, rfl⟩
    | [a] => exact ⟨.indexError, rfl⟩
    | [a, b] => exact ⟨.indexError, rfl⟩
    | [a, b, c] => exact ⟨.indexError, rfl⟩
    | a :: b :: c :: d :: rest => simp at hs; omega
  · intro a b c d rest hb
    have hsq : squareToIndex a b = .error (.valueError "invalid literal for int") := by
      unfold squareToIndex pyInt1
      rw [if_neg hb]
      rfl
    rw [from_uci_eq_cons, hsq]
    rfl

/-- Witness for `C5` (amended): the empty string raises. -/
theorem C5_witness :
    ([] : PyStr).length < 4 ∧ ∃ e, Move.from_uci ([] : PyStr) = .error e :=
  ⟨by decide, C5_no_validation.1 [] (by decide)⟩

/-- Parity of a length successor, in `Bool` form. -/
theorem parity_succ (n : Nat) : ((n + 1) % 2 == 1) = !(n % 2 == 1) := by
  rcases Nat.mod_two_eq_zero_or_one n with h | h <;> rw [Nat.add_mod, h] <;> rfl

theorem xor_not_left (a b : Bool) : Bool.xor (!a) b = Bool.xor a (!b) := by
  cases a <;> cases b <;> rfl

/-- Turn alternation on `ChessBoard`, from any start state, given the
library's push-flips-turn behaviour. -/
theorem chess_applyMoves_turn [DecidableEq CMove] (lib : ChessLib Pos CMove)
    (hflip : ∀ p m, lib.turn (lib.push p m) = !lib.turn p) :
    ∀ (ms : List CMove) (s s' : ChessState Pos CMove),
      ChessBoard.applyMoves lib s ms = some s' →
      lib.turn s'.board = Bool.xor (lib.turn s.board) (ms.length % 2 == 1) := by
  intro ms
  induction ms with
  | nil =>
    intro s s' h
    cases h
    simp
  | cons m ms ih =>
    intro s s' h
    unfold ChessBoard.applyMoves at h
    split at h
    · rename_i val s1 heq
      obtain ⟨_, hb, _⟩ := ChessBoard.apply_move_ok_inv heq
      rw [ih s1 s' h, hb, hflip, List.length_cons, parity_succ]
      exact xor_not_left _ _
    · exact absurd h (by simp)

/-- Side alternation on `XiangqiPyffishBoard`, from any start state, given
that the oracle's next-position call flips the FEN side field. -/
theorem xpb_applyMoves_side (o : XOracle)
    (hflip : ∀ f m f' b, o.getFen f m = .ok f' → fenSide f = some b →
      fenSide f' = some (!b)) :
    ∀ (ms : List String) (s s' : XPBState) (b : Bool),
      XiangqiPyffishBoard.applyMoves o s ms = some s' →
      fenSide s.current_fen = some b →
      fenSide s'.current_fen = some (Bool.xor b (ms.length % 2 == 1)) := by
  intro ms
  induction ms with
  | nil =>
    intro s s' b h hb
    cases h
    simpa using hb
  | cons m ms ih =>
    intro s s' b h hb
    unfold XiangqiPyffishBoard.applyMoves at h
    split at h
    · rename_i val s1 heq
      obtain ⟨fen', hget, hfen, _⟩ := XiangqiPyffishBoard.apply_ok_inv heq
      have hb1 : fenSide s1.current_fen = some (!b) := by
        rw [hfen]; exact hflip _ _ _ _ hget hb
      rw [ih s1 s' (!b) h hb1, List.length_cons, parity_succ]
      exact congrArg some (xor_not_left _ _)
    · exact absurd h (by simp)

/-- Side alternation on `SimpleXiangqiBoard`, from any start state. -/
theorem sxb_applyMoves_side (o : XOracle)
    (hflip : ∀ f m f' b, o.getFen f m = .ok f' → fenSide f = some b →
      fenSide f' = some (!b)) :
    ∀ (ms : List String) (s s' : XPBState) (b : Bool),
      SimpleXiangqiBoard.applyMoves o s ms = some s' →
      fenSide s.current_fen = some b →
      fenSide s'.current_fen = some (Bool.xor b (ms.length % 2 == 1)) := by
  intro ms
  induction ms with
  | nil =>
    intro s s' b h hb
    cases h
    simpa using hb
  | cons m ms ih =>
    intro s s' b h hb
    unfold SimpleXiangqiBoard.applyMoves at h
    split at h
    · rename_i val s1 heq
      obtain ⟨fen', hget, hfen, _⟩ := SimpleXiangqiBoard.make_move_ok_inv heq
      have hb1 : fenSide s1.current_fen = some (!b) := by
        rw [hfen]; exact hflip _ _ _ _ hget hb
      rw [ih s1 s' (!b) h hb1, List.length_cons, parity_succ]
      exact congrArg some (xor_not_left _ _)
    · exact absurd h (by simp)

/-- `C6`: after `N` successfully applied moves from a reset position the
side to move equals the initial side XOR (N mod 2), for every variant: the
`ChessBoard` wrapper (whose side lives in the wrapped library position;
hypothesis: `push` flips `turn`, as `python-chess` guarantees), the two
oracle-backed Xiangqi boards (whose side is the FEN's second field;
hypothesis: the oracle's next-position call flips it, as pyffish
guarantees), and the native stub board (whose `current_player` is flipped
by `apply_move`; there no move ever applies, so the property holds with
`N = 0`).  Reads (`get_legal_moves`, `is_game_over`, `to_observation`,
`get_state_hash`, `get_result`) perform no state writes in the source, so
no other operation flips the side. -/
theorem C6_turn_alternation {Pos CMove : Type} [DecidableEq CMove] :
    (∀ (lib : ChessLib Pos CMove),
      (∀ p m, lib.turn (lib.push p m) = !lib.turn p) →
      ∀ (ms : List CMove) (s' : ChessState Pos CMove),
        ChessBoard.applyMoves lib (ChessBoard.resetState lib) ms = some s' →
        lib.turn s'.board = Bool.xor (lib.turn lib.start) (ms.length % 2 == 1)) ∧
    (∀ (o : XOracle) (b0 : Bool),
      (∀ f m f' b, o.getFen f m = .ok f' → fenSide f = some b →
        fenSide f' = some (!b)) →
      fenSide o.startFen = some b0 →
      ∀ (ms : List String) (s' : XPBState),
        XiangqiPyffishBoard.applyMoves o (XiangqiPyffishBoard.resetState o) ms = some s' →
        fenSide s'.current_fen = some (Bool.xor b0 (ms.length % 2 == 1))) ∧
    (∀ (o : XOracle) (b0 : Bool),
      (∀ f m f' b, o.getFen f m = .ok f' → fenSide f = some b →
        fenSide f' = some (!b)) →
      fenSide o.startFen = some b0 →
      ∀ (ms : List String) (s' : XPBState),
        SimpleXiangqiBoard.applyMoves o (SimpleXiangqiBoard.resetState o) ms = some s' →
        fenSide s'.current_fen = some (Bool.xor b0 (ms.length % 2 == 1))) ∧
    (∀ (ms : List XiangqiMove) (s' : XQBState),
      XiangqiBoard.applyMoves XiangqiBoard.resetState ms = some s' →
      s'.current_player = Bool.xor true (ms.length % 2 == 1)) := by
  refine ⟨?_, ?_, ?_, ?_⟩
  · intro lib hflip ms s' h
    exact chess_applyMoves_turn lib hflip ms _ s' h
  · intro o b0 hflip hb0 ms s' h
    exact xpb_applyMoves_side o hflip ms _ s' b0 h hb0
  · intro o b0 hflip hb0 ms s' h
    exact sxb_applyMoves_side o hflip ms _ s' b0 h hb0
  · intro ms s' h
    match ms with
    | [] => cases h; rfl
    | m :: ms =>
      simp [XiangqiBoard.applyMoves, XiangqiBoard.apply_move,
        XiangqiBoard.get_legal_moves] at h

/-- The demo flip oracle does flip the FEN side on every successful
next-position call. -/
theorem flipOracle_flips : ∀ f m f' b, flipOracle.getFen f m = .ok f' →
    fenSide f = some b → fenSide f' = some (!b) := by
  intro f m f' b hget hside
  unfold flipOracle at hget
  dsimp only at hget
  split_ifs at hget with h1 h2
  · obtain ⟨hf, -⟩ := h1
    subst hf
    injection hget with hf'
    subst hf'
    have hb : b = true := by
      rw [show fenSide "s w" = some true from rfl] at hside
      exact (Option.some_inj.mp hside).symm
    subst hb
    rfl
  · obtain ⟨hf, -⟩ := h2
    subst hf
    injection hget with hf'
    subst hf'
    have hb : b = false := by
      rw [show fenSide "s b" = some false from rfl] at hside
      exact (Option.some_inj.mp hside).symm
    subst hb
    rfl

/-- Witness for `C6`: two moves on the demo chess backend return the turn
to the first player; one move on the flip oracle hands the turn to the
second player. -/
theorem C6_witness :
    (∀ (p : Bool) (m : Nat), demoChessLib.turn (demoChessLib.push p m) =
      !demoChessLib.turn p) ∧
    (ChessBoard.applyMoves demoChessLib (ChessBoard.resetState demoChessLib) [10, 11] =
      some { board := true, move_history := [10, 11], result := none } ∧
      demoChessLib.turn
        ({ board := true, move_history := [10, 11], result := none } :
          ChessState Bool Nat).board =
        Bool.xor (demoChessLib.turn demoChessLib.start) (([10, 11] : List Nat).length % 2 == 1)) ∧
    (fenSide flipOracle.startFen = some true ∧
      XiangqiPyffishBoard.applyMoves flipOracle
        (XiangqiPyffishBoard.resetState flipOracle) ["m"] =
        some { current_fen := "s b", move_history := ["m"], result := none } ∧
      fenSide ({ current_fen := "s b", move_history := ["m"], result := none } :
          XPBState).current_fen =
        some (Bool.xor true ((["m"] : List String).length % 2 == 1))) :=
  ⟨fun _ _ => rfl,
   ⟨rfl, (@C6_turn_alternation Bool Nat _).1 demoChessLib (fun _ _ => rfl) [10, 11] _ rfl⟩,
   ⟨rfl, rfl,
    (@C6_turn_alternation Bool Nat _).2.1 flipOracle true flipOracle_flips rfl ["m"] _ rfl⟩⟩

/-- `C7` counterexample: the claim says zero legal moves implies
`is_game_over() = true` for every variant in every reachable position.  The
native stub `XiangqiBoard`, immediately after `reset()`, returns the empty
list from `get_legal_moves` (its generator is a `TODO` stub) while
`is_game_over` returns `False` unconditionally. -/
theorem C7_counterexample :
    XiangqiBoard.get_legal_moves XiangqiBoard.resetState none = [] ∧
    XiangqiBoard.is_game_over XiangqiBoard.resetState = false := ⟨rfl, rfl⟩

/-- `C7` amended: for the oracle-backed boards, when the oracle's
legal-move query returns the empty list, `is_game_over()` returns true (it
is defined as exactly that emptiness check and never throws — oracle
exceptions are caught); but the native stub `XiangqiBoard` returns an empty
move list in every position while its `is_game_over` is constantly
`False`, so no-legal-moves does not imply game-over for that variant (its
`terminal_result` is also never set, so the agreement with `is_game_over`
holds there vacuously). -/
theorem C7_no_moves_game_over :
    (∀ (o : XOracle) (s : XPBState), o.legalMoves3 s.current_fen = .ok [] →
      XiangqiPyffishBoard.is_game_over o s = true) ∧
    (∀ (o : XOracle) (s : XPBState), o.legalMoves3 s.current_fen = .ok [] →
      SimpleXiangqiBoard.is_game_over o s = true) ∧
    (∀ s : XQBState,
      XiangqiBoard.get_legal_moves s none = [] ∧ XiangqiBoard.is_game_over s = false) := by
  refine ⟨?_, ?_, fun s => ⟨rfl, rfl⟩⟩
  · intro o s h
    unfold XiangqiPyffishBoard.is_game_over
    rw [h]
    rfl
  · intro o s h
    unfold SimpleXiangqiBoard.is_game_over
    rw [h]
    rfl

/-- Witness for `C7` (amended): a position the oracle reports as having no
moves is game over on both oracle-backed boards. -/
theorem C7_witness :
    emptyOracle.legalMoves3 "e w" = .ok [] ∧
    XiangqiPyffishBoard.is_game_over emptyOracle
      { current_fen := "e w", move_history := [], result := none } = true ∧
    SimpleXiangqiBoard.is_game_over emptyOracle
      { current_fen := "e w", move_history := [], result := none } = true :=
  ⟨rfl,
   C7_no_moves_game_over.1 emptyOracle
     { current_fen := "e w", move_history := [], result := none } rfl,
   C7_no_moves_game_over.2.1 emptyOracle
     { current_fen := "e w", move_history := [], result := none } rfl⟩

/-- `C8` counterexample: the claim says an oracle exception during a read
operation is treated as "no legal moves available", which the game-over
logic then interprets as a terminal position.  In the code the opposite
holds: `XiangqiPyffishBoard.is_game_over` catches the exception and returns
`False` — the position is treated as *not* over ("assume game is not
over"), not as terminal. -/
theorem C8_counterexample :
    downOracle.legalMoves3 "d w" = .error (.oracleError "backend unavailable") ∧
    XiangqiPyffishBoard.is_game_over downOracle
      { current_fen := "d w", move_history := [], result := none } = false := ⟨rfl, rfl⟩

/-- `C8` amended: oracle exceptions on read paths are swallowed, but they
are interpreted as "game continues", not as terminal —
`XiangqiPyffishBoard.is_game_over` returns `False`,
`SimpleXiangqiBoard.get_legal_moves` returns the empty list, and the
post-move termination check inside `apply_move` falls back to
`(reward 0, done False)` when both legal-move signatures raise.  An
exception from the mutating next-position call always propagates as
`ValueError` (with the history rolled back), exactly as the claim says. -/
theorem C8_read_swallowed_write_raises :
    (∀ (o : XOracle) (s : XPBState) (e : PyErr),
      o.legalMoves3 s.current_fen = .error e →
        XiangqiPyffishBoard.is_game_over o s = false) ∧
    (∀ (o : XOracle) (s : XPBState) (e : PyErr),
      o.legalMoves3 s.current_fen = .error e →
        SimpleXiangqiBoard.get_legal_moves o s = []) ∧
    (∀ (o : XOracle) (s : XPBState) (mv : String) (legal : List String) (e : PyErr),
      sfLegalMovesCompat o s.current_fen = .ok legal → mv ∈ legal →
      o.getFen s.current_fen mv = .error e →
        XiangqiPyffishBoard.apply_move o s mv =
          (.error (.valueError "Error applying move"), s)) ∧
    (∀ (o : XOracle) (s : XPBState) (mv : String) (e : PyErr),
      mv ∈ SimpleXiangqiBoard.get_legal_moves o s →
      o.getFen s.current_fen mv = .error e →
        SimpleXiangqiBoard.make_move o s mv =
          (.error (.valueError "Error making move"), s)) ∧
    (∀ (o : XOracle) (s : XPBState) (mv : String) (legal : List String) (fen' : String)
        (e1 e2 : PyErr),
      sfLegalMovesCompat o s.current_fen = .ok legal → mv ∈ legal →
      o.getFen s.current_fen mv = .ok fen' →
      o.legalMoves3 fen' = .error e1 → o.legalMoves2 fen' = .error e2 →
        XiangqiPyffishBoard.apply_move o s mv =
          (.ok (0, false),
           { current_fen := fen', move_history := s.move_history ++ [mv],
             result := s.result })) := by
  refine ⟨?_, ?_, ?_, ?_, ?_⟩
  · intro o s e h
    unfold XiangqiPyffishBoard.is_game_over
    rw [h]
  · intro o s e h
    unfold SimpleXiangqiBoard.get_legal_moves
    rw [h]
  · intro o s mv legal e hcompat hmv hget
    unfold XiangqiPyffishBoard.apply_move
    rw [hcompat]
    dsimp only
    rw [if_pos hmv, hget]
    dsimp only
    rw [List.dropLast_concat]
  · intro o s mv e hmv hget
    unfold SimpleXiangqiBoard.make_move
    rw [if_pos hmv, hget]
    dsimp only
    rw [List.dropLast_concat]
  · intro o s mv legal fen' e1 e2 hcompat hmv hget h1 h2
    have hc2 : sfLegalMovesCompat o fen' = .error e2 := by
      unfold sfLegalMovesCompat
      rw [h1]
      exact h2
    unfold XiangqiPyffishBoard.apply_move
    rw [hcompat]
    dsimp only
    rw [if_pos hmv, hget]
    dsimp only
    rw [hc2]

/-- Witness for `C8` (amended): a dead oracle makes `is_game_over` report
`False` and `get_legal_moves` report no moves; a write failure during
`apply_move` propagates as `ValueError` with the state restored. -/
theorem C8_witness :
    (downOracle.legalMoves3 "x w" = .error (.oracleError "backend unavailable") ∧
      XiangqiPyffishBoard.is_game_over downOracle
        { current_fen := "x w", move_history := [], result := none } = false ∧
      SimpleXiangqiBoard.get_legal_moves downOracle
        { current_fen := "x w", move_history := [], result := none } = []) ∧
    (sfLegalMovesCompat writeFailOracle "w w" = .ok ["m"] ∧ "m" ∈ ["m"] ∧
      XiangqiPyffishBoard.apply_move writeFailOracle
        { current_fen := "w w", move_history := [], result := none } "m" =
        (.error (.valueError "Error applying move"),
         { current_fen := "w w", move_history := [], result := none })) :=
  ⟨⟨rfl,
    C8_read_swallowed_write_raises.1 downOracle
      { current_fen := "x w", move_history := [], result := none } _ rfl,
    C8_read_swallowed_write_raises.2.1 downOracle
      { current_fen := "x w", move_history := [], result := none } _ rfl⟩,
   ⟨rfl, by decide,
    C8_read_swallowed_write_raises.2.2.1 writeFailOracle
      { current_fen := "w w", move_history := [], result := none } "m" ["m"]
      (.oracleError "write failure") rfl (by decide) rfl⟩⟩

/-- `C9`: `to_observation` is deterministic (in the embedding it is a pure
function of the state, faithfully to the source methods, which perform no
state writes — the first conjunct of each part records this), every entry
of the tensor is 0 or 1 (the floats 0.0/1.0), and the total over all
planes equals the number of pieces on the board.  Hypotheses state the
backend contracts: `python-chess` pieces are always one of the 12 mapped
(type, color) pairs, pyffish FENs are well-formed, and stub grid entries
are signed piece codes in `[-7, 7]`. -/
theorem C9_observation_tensor {Pos CMove : Type} :
    (∀ (lib : ChessLib Pos CMove) (s : ChessState Pos CMove),
      ChessBoard.to_observation lib s = ChessBoard.to_observation lib s ∧
      ((∀ sq pc, lib.pieceAt s.board sq = some pc → (chessPlane pc).isSome) →
        ∃ f, ChessBoard.to_observation lib s = .ok f ∧
          (∀ j, f j = 0 ∨ f j = 1) ∧
          ∑ i in D12, f i = chessNumPieces lib s)) ∧
    (∀ s : XPBState,
      XiangqiPyffishBoard.to_observation s = XiangqiPyffishBoard.to_observation s ∧
      (fenWellFormed s.current_fen →
        ∃ f, XiangqiPyffishBoard.to_observation s = .ok f ∧
          (∀ j, f j = 0 ∨ f j = 1) ∧
          ∑ i in D14, f i = fenPieceCount s.current_fen)) ∧
    (∀ s : XPBState,
      SimpleXiangqiBoard.get_observation s = SimpleXiangqiBoard.get_observation s ∧
      (fenWellFormed s.current_fen →
        ∃ f, SimpleXiangqiBoard.get_observation s = .ok f ∧
          (∀ j, f j = 0 ∨ f j = 1) ∧
          ∑ i in D14, f i = fenPieceCount s.current_fen)) ∧
    (∀ s : XQBState,
      XiangqiBoard.to_observation s = XiangqiBoard.to_observation s ∧
      ((∀ rc ∈ xqCells, -7 ≤ gridGet s.board rc.1 rc.2 ∧ gridGet s.board rc.1 rc.2 ≤ 7) →
        ∃ f, XiangqiBoard.to_observation s = .ok f ∧
          (∀ j, f j = 0 ∨ f j = 1) ∧
          ∑ i in D14, f i = xqNumPieces s)) :=
  ⟨fun lib s => ⟨rfl, chessObs_props lib s⟩,
   fun s => ⟨rfl, fun hwf => fenObs_props 7 (by norm_num) s.current_fen hwf⟩,
   fun s => ⟨rfl, fun hwf => fenObs_props 3 (by norm_num) s.current_fen hwf⟩,
   fun s => ⟨rfl, fun hb => xqObs_props s hb⟩⟩

/-- Witness for `C9`: concrete boards (the demo chess backend, a one-piece
Xiangqi FEN, the native starting grid) satisfy the backend-contract
hypotheses, and the tensor totals equal the respective piece counts. -/
theorem C9_witness :
    ((∀ sq pc, demoChessLib.pieceAt (ChessBoard.resetState demoChessLib).board sq = some pc →
        (chessPlane pc).isSome) ∧
      (∃ f, ChessBoard.to_observation demoChessLib (ChessBoard.resetState demoChessLib) =
          .ok f ∧ (∀ j, f j = 0 ∨ f j = 1) ∧
          ∑ i in D12, f i = chessNumPieces demoChessLib (ChessBoard.resetState demoChessLib))) ∧
    (fenWellFormed "k w" ∧
      (∃ f, XiangqiPyffishBoard.to_observation
          { current_fen := "k w", move_history := [], result := none } = .ok f ∧
        (∀ j, f j = 0 ∨ f j = 1) ∧ ∑ i in D14, f i = fenPieceCount "k w") ∧
      (∃ f, SimpleXiangqiBoard.get_observation
          { current_fen := "k w", move_history := [], result := none } = .ok f ∧
        (∀ j, f j = 0 ∨ f j = 1) ∧ ∑ i in D14, f i = fenPieceCount "k w")) ∧
    ((∀ rc ∈ xqCells, -7 ≤ gridGet XiangqiBoard.resetState.board rc.1 rc.2 ∧
        gridGet XiangqiBoard.resetState.board rc.1 rc.2 ≤ 7) ∧
      (∃ f, XiangqiBoard.to_observation XiangqiBoard.resetState = .ok f ∧
        (∀ j, f j = 0 ∨ f j = 1) ∧
        ∑ i in D14, f i = xqNumPieces XiangqiBoard.resetState)) := by
  have hpc : ∀ sq pc,
      demoChessLib.pieceAt (ChessBoard.resetState demoChessLib).board sq = some pc →
      (chessPlane pc).isSome := by
    intro sq pc h
    by_cases hs : sq = 0
    · subst hs
      rw [show demoChessLib.pieceAt (ChessBoard.resetState demoChessLib).board 0 =
          some (6, true) from rfl] at h
      rw [← Option.some_inj.mp h]
      rfl
    · rw [show demoChessLib.pieceAt (ChessBoard.resetState demoChessLib).board sq =
          (if sq = 0 then some (6, true) else none) from rfl, if_neg hs] at h
      exact absurd h (by simp)
  refine ⟨⟨hpc, ((@C9_observation_tensor Bool Nat).1 demoChessLib _).2 hpc⟩,
    ⟨by decide, ((@C9_observation_tensor Bool Nat).2.1
        { current_fen := "k w", move_history := [], result := none }).2 (by decide),
      ((@C9_observation_tensor Bool Nat).2.2.1
        { current_fen := "k w", move_history := [], result := none }).2 (by decide)⟩,
    ⟨by decide, ((@C9_observation_tensor Bool Nat).2.2.2 XiangqiBoard.resetState).2
      (by decide)⟩⟩

/-- `C10`: `XiangqiEnv` is constructed over the native stub `XiangqiBoard`
(`xiangqi_env.py` line 30), whose legal-move list is always empty; so after
`reset()` every non-negative action index fails the
`action >= len(legal_moves)` check and `step` raises — an episode on game
type `"xiangqi"` (which the factory maps to `XiangqiEnv`) can never
advance. -/
theorem C10_xiangqi_env_never_advances :
    ∀ (e : XQEnvState) (a : Int), 0 ≤ a →
      XiangqiEnv.step (XiangqiEnv.reset e) a =
        (.error (.valueError "Invalid action index"), XiangqiEnv.reset e) := by
  intro e a ha
  unfold XiangqiEnv.step
  rw [if_pos (by
    rw [show XiangqiBoard.get_legal_moves (XiangqiEnv.reset e).board none = [] from rfl]
    simpa using ha)]

/-- Witness for `C10`: action 0 on a freshly reset `XiangqiEnv` raises. -/
theorem C10_witness :
    (0 : Int) ≤ 0 ∧
    XiangqiEnv.step (XiangqiEnv.reset (XiangqiEnv.init 400)) 0 =
      (.error (.valueError "Invalid action index"), XiangqiEnv.reset (XiangqiEnv.init 400)) :=
  ⟨by decide, C10_xiangqi_env_never_advances (XiangqiEnv.init 400) 0 (by decide)⟩

end ChessRL


